import Mathlib

/-!
# Freelancy: embedding and verified properties

Shallow embedding of `storage/storage.go`, `internal/models/types.go`, `ui/income_chart.go`,
the two forms of package `ui` and `model.Update` of `main.go`.

Modelling conventions

* A Go slice is a `List`. The storage object is the only holder of its slices while a
  method runs, so in-place splicing (`append(xs[:i], xs[i+1:]...)`) is list removal.
* Go `int` is `Int`. The only arithmetic in the storage layer is `ID + 1`, which is written
  here without the wrap-around of the machine: it is the Go result exactly when the ID is
  below `maxInt` (lemma `goSucc_of_lt`). Starting from an empty dataset an ID grows by at most
  one per call (lemma `run_project_ids_le_length`), so runs from the empty dataset stay below
  the bound; a statement about an arbitrary stored dataset carries the bound as a hypothesis.
* `float64` values are only copied by the storage layer; a cost is carried as its 64-bit
  pattern.
* `time.Now()` is an input: every operation that reads the clock takes the readings as
  arguments.
* `s.Save()` is an input too: every mutating operation takes the value that `Save` returns
  (`none` is Go `nil`). The in-memory mutation happens before `Save` is called and is kept
  whatever `Save` returns, exactly as in the source.
-/

namespace Freelancy

/-- Go `time.Time`, kept abstract as a number of clock ticks. -/
abbrev Time := Nat

/-- Go `float64`, carried as its IEEE-754 bit pattern (never computed with here). -/
abbrev Float64 := Nat

/-- Go `error` values met in the storage layer. -/
inductive Error where
  /-- The value of `fmt.Errorf(msg)`. -/
  | errorf (msg : String)
  /-- An error coming back from `Save` (marshalling or file system). -/
  | io (msg : String)
deriving DecidableEq, Repr

/-- Struct `models.Task` of `internal/models/types.go`. -/
structure Task where
  ID : Int
  ProjectID : Int
  Title : String
  Description : String
  Deadline : String
  Status : String
  CompletedDate : String
  CreatedAt : Time
  UpdatedAt : Time
deriving DecidableEq, Repr

/-- Struct `models.Project` of `internal/models/types.go`. -/
structure Project where
  ID : Int
  Name : String
  Client : String
  Cost : Float64
  Deadline : String
  Status : String
  Tasks : List Task
deriving DecidableEq, Repr

/-- Constant `models.TaskStatusWaiting`. -/
def TaskStatusWaiting : String := "Waiting"

/-- Constant `models.TaskStatusInProgress`. -/
def TaskStatusInProgress : String := "In Progress"

/-- Constant `models.TaskStatusDone`. -/
def TaskStatusDone : String := "Done"

/-- Struct `storage.Storage`. -/
structure Storage where
  dataFile : String
  Projects : List Project
deriving DecidableEq, Repr

/-- The dataset right after first-run initialisation in `NewStorage`: no projects. -/
def Storage.empty (dataFile : String) : Storage :=
  { dataFile := dataFile, Projects := [] }

/-! ## Operations of `storage.go` -/

/-- The largest value of a Go `int` (64 bits). -/
def maxInt : Int := 9223372036854775807

/-- The smallest value of a Go `int` (64 bits). -/
def minInt : Int := -9223372036854775808

/-- Go `a + 1` on `int`: the machine wraps from the largest value to the smallest. -/
def goSucc (a : Int) : Int := if a = maxInt then minInt else a + 1

/-- Method `Storage.AddProject`. The new ID `last.ID + 1` is the Go value as long as the last
stored ID is below `maxInt`; the wrap-around at `maxInt` itself is not modelled. -/
def AddProject (s : Storage) (project : Project) (save : Option Error) :
    Storage × Option Error :=
  let project : Project :=
    match s.Projects.getLast? with
    | none => { project with ID := 1 }
    | some last => { project with ID := last.ID + 1 }
  let project : Project :=
    if project.Status = "" then { project with Status := "Active" } else project
  ({ s with Projects := s.Projects ++ [project] }, save)

/-- The task that `AddTask` appends to project `p`: ID, owner and timestamps overwritten. The
new ID `last.ID + 1` is the Go value as long as the last task ID is below `maxInt`; the
wrap-around at `maxInt` itself is not modelled. -/
def stampTask (p : Project) (projectID : Int) (task : Task) (createdAt updatedAt : Time) :
    Task :=
  let task : Task :=
    match p.Tasks.getLast? with
    | none => { task with ID := 1 }
    | some last => { task with ID := last.ID + 1 }
  { task with ProjectID := projectID, CreatedAt := createdAt, UpdatedAt := updatedAt }

/-- The `range s.Projects` loop of `AddTask`: `none` when the loop falls through. -/
def addTaskLoop (projectID : Int) (task : Task) (createdAt updatedAt : Time) :
    List Project → Option (List Project)
  | [] => none
  | p :: ps =>
    if p.ID = projectID then
      some ({ p with Tasks := p.Tasks ++ [stampTask p projectID task createdAt updatedAt] } :: ps)
    else
      (addTaskLoop projectID task createdAt updatedAt ps).map (fun r => p :: r)

/-- Method `Storage.AddTask`; `createdAt` and `updatedAt` are its two clock readings. -/
def AddTask (s : Storage) (projectID : Int) (task : Task) (createdAt updatedAt : Time)
    (save : Option Error) : Storage × Option Error :=
  match addTaskLoop projectID task createdAt updatedAt s.Projects with
  | some ps => ({ s with Projects := ps }, save)
  | none => (s, none)

/-- Method `Storage.GetProjects`: one pass filling the two slices, then their concatenation. -/
def GetProjects (s : Storage) : List Project :=
  let acc := s.Projects.foldl
    (fun (acc : List Project × List Project) project =>
      if project.Status = "Completed" then (acc.1, acc.2 ++ [project])
      else (acc.1 ++ [project], acc.2))
    ([], [])
  ([] ++ acc.1) ++ acc.2

/-- Method `Storage.GetTasks`. -/
def GetTasks (s : Storage) : List Task :=
  s.Projects.foldl (fun allTasks p => allTasks ++ p.Tasks) []

/-- The loop of `UpdateProjectStatus`. -/
def updateProjectStatusLoop (projectID : Int) (status : String) :
    List Project → Option (List Project)
  | [] => none
  | p :: ps =>
    if p.ID = projectID then some ({ p with Status := status } :: ps)
    else (updateProjectStatusLoop projectID status ps).map (fun r => p :: r)

/-- Method `Storage.UpdateProjectStatus`. -/
def UpdateProjectStatus (s : Storage) (projectID : Int) (status : String)
    (save : Option Error) : Storage × Option Error :=
  match updateProjectStatusLoop projectID status s.Projects with
  | some ps => ({ s with Projects := ps }, save)
  | none => (s, some (Error.errorf "project not found"))

/-- The loop of `DeleteProject`: splices out the first project carrying the ID. -/
def deleteProjectLoop (projectID : Int) : List Project → Option (List Project)
  | [] => none
  | p :: ps =>
    if p.ID = projectID then some ps
    else (deleteProjectLoop projectID ps).map (fun r => p :: r)

/-- Method `Storage.DeleteProject`. -/
def DeleteProject (s : Storage) (projectID : Int) (save : Option Error) :
    Storage × Option Error :=
  match deleteProjectLoop projectID s.Projects with
  | some ps => ({ s with Projects := ps }, save)
  | none => (s, some (Error.errorf "project not found"))

/-- The three field writes `UpdateTaskStatus` performs on the task it found. -/
def setTaskStatus (t : Task) (status completedDate : String) (now : Time) : Task :=
  let t : Task := { t with Status := status }
  let t : Task := { t with UpdatedAt := now }
  if status = TaskStatusDone then { t with CompletedDate := completedDate }
  else { t with CompletedDate := "" }

/-- The inner `range p.Tasks` loop of `UpdateTaskStatus`. -/
def updateTaskStatusInner (taskID : Int) (status completedDate : String) (now : Time) :
    List Task → Option (List Task)
  | [] => none
  | t :: ts =>
    if t.ID = taskID then some (setTaskStatus t status completedDate now :: ts)
    else (updateTaskStatusInner taskID status completedDate now ts).map (fun r => t :: r)

/-- The outer loop of `UpdateTaskStatus`: a project with the ID but without the task does not
stop the search. -/
def updateTaskStatusLoop (projectID taskID : Int) (status completedDate : String)
    (now : Time) : List Project → Option (List Project)
  | [] => none
  | p :: ps =>
    if p.ID = projectID then
      match updateTaskStatusInner taskID status completedDate now p.Tasks with
      | some ts => some ({ p with Tasks := ts } :: ps)
      | none =>
        (updateTaskStatusLoop projectID taskID status completedDate now ps).map (fun r => p :: r)
    else
      (updateTaskStatusLoop projectID taskID status completedDate now ps).map (fun r => p :: r)

/-- Method `Storage.UpdateTaskStatus`; `now` is its clock reading. -/
def UpdateTaskStatus (s : Storage) (projectID taskID : Int) (status completedDate : String)
    (now : Time) (save : Option Error) : Storage × Option Error :=
  match updateTaskStatusLoop projectID taskID status completedDate now s.Projects with
  | some ps => ({ s with Projects := ps }, save)
  | none => (s, some (Error.errorf "task not found"))

/-- The inner loop of `DeleteTask`: splices out the first task carrying the ID. -/
def deleteTaskInner (taskID : Int) : List Task → Option (List Task)
  | [] => none
  | t :: ts =>
    if t.ID = taskID then some ts
    else (deleteTaskInner taskID ts).map (fun r => t :: r)

/-- The outer loop of `DeleteTask`. -/
def deleteTaskLoop (projectID taskID : Int) : List Project → Option (List Project)
  | [] => none
  | p :: ps =>
    if p.ID = projectID then
      match deleteTaskInner taskID p.Tasks with
      | some ts => some ({ p with Tasks := ts } :: ps)
      | none => (deleteTaskLoop projectID taskID ps).map (fun r => p :: r)
    else
      (deleteTaskLoop projectID taskID ps).map (fun r => p :: r)

/-- Method `Storage.DeleteTask`. -/
def DeleteTask (s : Storage) (projectID taskID : Int) (save : Option Error) :
    Storage × Option Error :=
  match deleteTaskLoop projectID taskID s.Projects with
  | some ps => ({ s with Projects := ps }, save)
  | none => (s, some (Error.errorf "task not found"))

/-! ## Persistence: `Save` and `Load`

`Save` hands the storage object to `json.MarshalIndent` and writes the text to the data file;
`Load` reads the file and hands the text to `json.Unmarshal`. Package `encoding/json` is
modelled from its documentation at the level of the document: which key is written for which
field of the structs of `types.go` and `storage.go`, what `omitempty` leaves out, and which
values cannot be encoded. The layout of the text (indentation, escapes, the digits of a
number) is the business of the library in both directions and is not modelled: a file holds
the document that was written to it, or bytes that are no JSON text.

* A `float64` is written as the shortest decimal that reads back as the same value; NaN and
  the two infinities cannot be encoded (`UnsupportedValueError`).
* A `time.Time` is written as RFC 3339 text with nanoseconds and read back as the same
  instant. `Time` stands for the instant; the monotonic clock reading and the location
  pointer of the Go value, which the text does not carry, are outside the model.
* A Go string is a `String` here, that is valid Unicode text; it is read back as written.
* The field `dataFile` is unexported: it is neither written nor read. -/

/-- One call of a mutating method, with all its arguments and environment readings. -/
inductive Op where
  | addProject (project : Project) (save : Option Error)
  | addTask (projectID : Int) (task : Task) (createdAt updatedAt : Time) (save : Option Error)
  | updateProjectStatus (projectID : Int) (status : String) (save : Option Error)
  | updateTaskStatus (projectID taskID : Int) (status completedDate : String) (now : Time)
      (save : Option Error)
  | deleteProject (projectID : Int) (save : Option Error)
  | deleteTask (projectID taskID : Int) (save : Option Error)
deriving DecidableEq, Repr

/-- The dataset after one call. -/
def step (s : Storage) : Op → Storage
  | .addProject project save => (AddProject s project save).1
  | .addTask projectID task c u save => (AddTask s projectID task c u save).1
  | .updateProjectStatus projectID status save => (UpdateProjectStatus s projectID status save).1
  | .updateTaskStatus projectID taskID status d now save =>
    (UpdateTaskStatus s projectID taskID status d now save).1
  | .deleteProject projectID save => (DeleteProject s projectID save).1
  | .deleteTask projectID taskID save => (DeleteTask s projectID taskID save).1

/-- The dataset after a sequence of calls, oldest first. -/
def run (s : Storage) (ops : List Op) : Storage := ops.foldl step s

/-- A blank project record carrying only a name and a status, for examples. -/
def mkProject (name status : String) : Project :=
  { ID := 0, Name := name, Client := "", Cost := 0, Deadline := "", Status := status, Tasks := [] }

/-- A blank task record carrying only a title and a status, for examples. -/
def mkTask (title status : String) : Task :=
  { ID := 0, ProjectID := 0, Title := title, Description := "", Deadline := "",
    Status := status, CompletedDate := "", CreatedAt := 0, UpdatedAt := 0 }

/-! ## Observations on runs -/

/-- The ID that a call of `AddProject` gave out, read off the project it stored last. -/
def addedProjectID (s : Storage) (project : Project) (save : Option Error) : Int :=
  match (AddProject s project save).1.Projects.getLast? with
  | some p => p.ID
  | none => 0

/-- The IDs given out by the `AddProject` calls of a run, oldest first. -/
def assignedProjectIDs (s : Storage) : List Op → List Int
  | [] => []
  | .addProject project save :: ops =>
    addedProjectID s project save
      :: assignedProjectIDs (step s (.addProject project save)) ops
  | op :: ops => assignedProjectIDs (step s op) ops

/-- The call is an `AddProject` or a `DeleteProject`. -/
def Op.isAddOrDeleteProject : Op → Bool
  | .addProject _ _ => true
  | .deleteProject _ _ => true
  | _ => false

/-- No `DeleteProject` call of the run names the ID of the project stored last at the time
of the call. -/
def deletionsSpareLast (s : Storage) : List Op → Bool
  | [] => true
  | .deleteProject projectID save :: ops =>
    decide ((s.Projects.map (fun p => p.ID)).getLast? ≠ some projectID)
      && deletionsSpareLast (step s (.deleteProject projectID save)) ops
  | op :: ops => deletionsSpareLast (step s op) ops

/-- The ID `AddProject` is about to give out: one more than the ID of the project stored
last, or 1 for an empty list (lines 78 to 82 of `storage.go`). -/
def nextProjectID (ps : List Project) : Int :=
  match (ps.map (fun p => p.ID)).getLast? with
  | none => 1
  | some last => last + 1

/-- The largest element of a list of IDs, `none` for the empty list. -/
def maxID : List Int → Option Int
  | [] => none
  | x :: xs => some (xs.foldl max x)

/-- The allocation rule in the words of the specification: `max(existing) + 1`, or `1` if
the collection is empty. -/
def specNextID (existing : List Int) : Int :=
  match maxID existing with
  | none => 1
  | some m => m + 1

/-- The list of IDs is empty, or its last element is its largest one and lies below the
largest Go `int`. -/
def lastIsLargest (ids : List Int) : Prop :=
  ∀ last ∈ ids.getLast?, last < maxInt ∧ ∀ y ∈ ids, y ≤ last

instance (ids : List Int) : Decidable (lastIsLargest ids) := by
  unfold lastIsLargest
  infer_instance

/-- The IDs are stored in strictly increasing order. -/
def idsIncreasing (ids : List Int) : Prop := ids.Pairwise (fun a b => a < b)

instance (ids : List Int) : Decidable (idsIncreasing ids) := by
  unfold idsIncreasing
  infer_instance

/-- The call hands no ready-made tasks to the storage: an `AddProject` call passes a project
whose task list is empty, as the new-project form of `main.go` does. -/
def Op.addsNoTasks : Op → Bool
  | .addProject project _ => decide (project.Tasks = [])
  | _ => true

/-- The completed-date rule of the data model for one task: the date is set (non-empty)
exactly when the status is `Done`. -/
def Task.completedDateOK (t : Task) : Prop :=
  t.CompletedDate ≠ "" ↔ t.Status = TaskStatusDone

instance (t : Task) : Decidable t.completedDateOK := by
  unfold Task.completedDateOK
  infer_instance

/-- The call itself respects the completed-date rule: every task it hands in obeys the rule,
and a status update to `Done` comes with a non-empty date. -/
def Op.respectsCompletedDate : Op → Bool
  | .addProject project _ => decide (∀ t ∈ project.Tasks, t.completedDateOK)
  | .addTask _ task _ _ _ => decide task.completedDateOK
  | .updateTaskStatus _ _ status completedDate _ _ =>
    decide (status = TaskStatusDone → completedDate ≠ "")
  | _ => true

/-- A small dataset for examples: project 1 with tasks 1 and 2, and project 2 without
tasks. -/
def exampleDataset : Storage :=
  Storage.mk "data.json"
    [{ mkProject "A" "Active" with
        ID := 1,
        Tasks := [{ mkTask "x" "Waiting" with ID := 1, ProjectID := 1 },
                  { mkTask "y" "In Progress" with ID := 2, ProjectID := 1 }] },
     { mkProject "B" "Completed" with ID := 2 }]

/-! ## Calendar dates as the Go `time` package handles them

`income_chart.go` uses four operations of the standard library: `time.Now`, `Time.AddDate`,
`Time.Format` with layout `Jan 2006` and `time.Parse` with layout `2006-01-02`. They are
modelled on civil dates (year, month, day); the time of day and the time zone play no part
in the month labels and are left out. -/

/-- The civil date of a Go `time.Time`: year, month (1 to 12) and day of the month. -/
structure Date where
  year : Int
  month : Nat
  day : Nat
deriving DecidableEq, Repr

/-- Function `isLeap` of package `time`. -/
def isLeap (year : Int) : Bool :=
  year % 4 = 0 && (year % 100 ≠ 0 || year % 400 = 0)

/-- Function `daysIn` of package `time`: the number of days of a month of a year. -/
def daysIn (month : Nat) (year : Int) : Nat :=
  if month = 2 then (if isLeap year then 29 else 28)
  else if month = 4 ∨ month = 6 ∨ month = 9 ∨ month = 11 then 30
  else 31

/-- Go `t.AddDate(0, months, 0)` on the civil date of `t`. The month is moved and overflow is
carried into the year; a day that does not exist in the month reached is normalised the way
`time.Date` does, by counting the excess days into the following month (October 31 plus one
month is December 1). For a date with a day of at most 31 the excess is at most 3 days, so
one carry is enough. -/
def addMonths (t : Date) (months : Int) : Date :=
  let m : Int := (t.month : Int) - 1 + months
  let year : Int := t.year + m / 12
  let month : Nat := (m % 12).toNat + 1
  if t.day ≤ daysIn month year then { year := year, month := month, day := t.day }
  else if month = 12 then { year := year + 1, month := 1, day := t.day - daysIn month year }
  else { year := year, month := month + 1, day := t.day - daysIn month year }

/-- Table `shortMonthNames` of package `time`. -/
def shortMonthNames : List String :=
  ["Jan", "Feb", "Mar", "Apr", "May", "Jun", "Jul", "Aug", "Sep", "Oct", "Nov", "Dec"]

/-- Function `appendInt` of package `time`: decimal digits, zero-padded to the width, after a
minus sign for a negative number. -/
def appendInt (x : Int) (width : Nat) : String :=
  let digits := Nat.repr x.natAbs
  (if x < 0 then "-" else "") ++ String.mk (List.replicate (width - digits.length) '0')
    ++ digits

/-- Go `t.Format("Jan 2006")`: the three-letter month name, a blank and the year on four
digits. -/
def formatMonthYear (t : Date) : String :=
  shortMonthNames.getD (t.month - 1) "" ++ " " ++ appendInt t.year 4

/-- The value of an ASCII digit. -/
def digitVal (c : Char) : Nat := c.toNat - '0'.toNat

/-- Go `time.Parse("2006-01-02", value)`, `none` standing for a parse error: exactly four
digits, a dash, two digits, a dash, two digits and nothing else; the month must lie in 1 to
12 and the day must exist in that month of that year. -/
def parseDate (value : String) : Option Date :=
  match value.data with
  | [y1, y2, y3, y4, s1, m1, m2, s2, d1, d2] =>
    if y1.isDigit ∧ y2.isDigit ∧ y3.isDigit ∧ y4.isDigit ∧ s1 = '-' ∧ m1.isDigit ∧ m2.isDigit
        ∧ s2 = '-' ∧ d1.isDigit ∧ d2.isDigit then
      let year : Int :=
        (digitVal y1 * 1000 + digitVal y2 * 100 + digitVal y3 * 10 + digitVal y4 : Nat)
      let month := digitVal m1 * 10 + digitVal m2
      let day := digitVal d1 * 10 + digitVal d2
      if month = 0 ∨ 12 < month then none
      else if day < 1 ∨ daysIn month year < day then none
      else some { year := year, month := month, day := day }
    else none
  | _ => none

/-! ## The income chart of `ui/income_chart.go` -/

/-- The `float64` operations that `income_chart.go` applies to costs. The storage carries a
cost as a bit pattern; what the machine does with two of them is taken as given. The literal
`0` is the pattern 0. -/
structure FloatOps where
  /-- Addition of `float64`, the `+=` of line 65. -/
  add : Float64 → Float64 → Float64
  /-- Comparison `a > b` of `float64`, line 78. -/
  gt : Float64 → Float64 → Bool
  /-- The text of `fmt.Sprintf("%.2f", x)`. -/
  format2 : Float64 → String

namespace ui

/-- Struct `ui.Task` of `ui/project.go`. -/
structure Task where
  ID : Int
  ProjectID : Int
  Title : String
  Description : String
  Status : String
deriving DecidableEq, Repr

/-- Struct `ui.Project` of `ui/project.go`. -/
structure Project where
  ID : Int
  Name : String
  Client : String
  Cost : Float64
  Deadline : String
  Status : String
  Tasks : List Task
deriving DecidableEq, Repr

/-- Struct `ui.MonthIncome`. -/
structure MonthIncome where
  Month : String
  Income : Float64
  Projects : List String
deriving DecidableEq, Repr

/-- Struct `ui.IncomeChart`, without its drawing style. -/
structure IncomeChart where
  monthlyIncomes : List MonthIncome
  maxIncome : Float64
  graphHeight : Int
  selected : Int
deriving DecidableEq, Repr

/-- Function `ui.NewIncomeChart`: twelve zero-valued buckets, nothing selected. -/
def NewIncomeChart : IncomeChart :=
  { monthlyIncomes := List.replicate 12 { Month := "", Income := 0, Projects := [] },
    maxIncome := 0, graphHeight := 15, selected := -1 }

/-- The inner `range ic.monthlyIncomes` loop of `UpdateData`: the first bucket whose label
equals the deadline label takes the cost and the summary line, then the loop breaks. -/
def addToBucket (F : FloatOps) (deadlineStr : String) (project : Project) :
    List MonthIncome → List MonthIncome
  | [] => []
  | monthIncome :: rest =>
    if monthIncome.Month = deadlineStr then
      { monthIncome with
          Income := F.add monthIncome.Income project.Cost,
          Projects := monthIncome.Projects
            ++ [project.Name ++ " ($" ++ F.format2 project.Cost ++ ")"] } :: rest
    else monthIncome :: addToBucket F deadlineStr project rest

/-- The first loop of `UpdateData`: bucket `i` is reset and labelled with the month of
`now.AddDate(0, -(11-i), 0)`. -/
def initMonths (now : Date) (monthlyIncomes : List MonthIncome) : List MonthIncome :=
  (List.range 12).foldl
    (fun acc i =>
      acc.set i { Month := formatMonthYear (addMonths now (-(11 - (i : Int)))),
                  Income := 0, Projects := [] })
    monthlyIncomes

/-- Method `IncomeChart.UpdateData`; `now` is the civil date of its clock reading. The chart
comes from `NewIncomeChart`, so the twelve writes of the first loop are in range. -/
def IncomeChart.UpdateData (F : FloatOps) (ic : IncomeChart) (now : Date)
    (projects : List Project) : IncomeChart :=
  let months := initMonths now ic.monthlyIncomes
  let months := projects.foldl
    (fun acc project =>
      if project.Status ≠ "Completed" then acc
      else
        match parseDate project.Deadline with
        | none => acc
        | some deadline => addToBucket F (formatMonthYear deadline) project acc)
    months
  let maxIncome := months.foldl
    (fun maxIncome mi => if F.gt mi.Income maxIncome then mi.Income else maxIncome) 0
  { ic with monthlyIncomes := months, maxIncome := maxIncome }

end ui

/-! ## The terminal program of `main.go`

The program is a Bubble Tea model: `Update` receives one message at a time. What belongs to
the libraries (the text-input widget, `strconv.ParseFloat`, the `float64` operations) is
taken as given; the readings of the clock and the outcome of `Save` come with each message.
A Go index expression out of range stops the program with a run-time panic; `Update` then
yields `none`. -/

/-- A Bubble Tea message: a key press with the text of `KeyMsg.String()`, or anything else. -/
inductive Msg where
  | key (s : String)
  | other
deriving DecidableEq, Repr

namespace ui

/-- The part of `textinput.Model` (package `bubbles`) that the forms read or write. -/
structure TextInput where
  Placeholder : String
  value : String
  focus : Bool
deriving DecidableEq, Repr

/-- Struct `ui.ProjectForm`. -/
structure ProjectForm where
  inputs : List TextInput
  focusIndex : Int
  done : Bool
deriving DecidableEq, Repr

/-- Function `ui.NewProjectForm`: four empty inputs, the first one focused. -/
def NewProjectForm : ProjectForm :=
  { inputs := [{ Placeholder := "Project Name", value := "", focus := true },
               { Placeholder := "Client Name", value := "", focus := false },
               { Placeholder := "Cost", value := "", focus := false },
               { Placeholder := "Deadline (YYYY-MM-DD)", value := "", focus := false }],
    focusIndex := 0, done := false }

/-- Struct `ui.TaskForm`. -/
structure TaskForm where
  inputs : List TextInput
  focusIndex : Int
  done : Bool
  projectID : Int
deriving DecidableEq, Repr

/-- Function `ui.NewTaskForm`: three empty inputs, the first one focused. -/
def NewTaskForm (projectID : Int) : TaskForm :=
  { inputs := [{ Placeholder := "Task Title", value := "", focus := true },
               { Placeholder := "Description", value := "", focus := false },
               { Placeholder := "Deadline (YYYY-MM-DD)", value := "", focus := false }],
    focusIndex := 0, done := false, projectID := projectID }

/-- The key handling shared by `ProjectForm.Update` and `TaskForm.Update` (the two bodies are
the same text): the new inputs, focus index and done flag, and whether `tea.Quit` is
returned. `typed` is `textinput.Model.Update` of the library. -/
def formUpdate (typed : TextInput → Msg → TextInput) (inputs : List TextInput)
    (focusIndex : Int) (done : Bool) (msg : Msg) : (List TextInput × Int × Bool) × Bool :=
  match msg with
  | .key s =>
    if s = "ctrl+c" ∨ s = "esc" then ((inputs, focusIndex, done), true)
    else if s = "tab" ∨ s = "shift+tab" ∨ s = "enter" ∨ s = "up" ∨ s = "down" then
      if s = "enter" ∧ focusIndex = (inputs.length : Int) - 1 then
        ((inputs, focusIndex, true), false)
      else
        let focusIndex : Int :=
          if s = "up" ∨ s = "shift+tab" then focusIndex - 1 else focusIndex + 1
        let focusIndex : Int :=
          if focusIndex ≥ (inputs.length : Int) then 0
          else if focusIndex < 0 then (inputs.length : Int) - 1
          else focusIndex
        let inputs := inputs.enum.map
          (fun ix => if (ix.1 : Int) = focusIndex then { ix.2 with focus := true }
                     else { ix.2 with focus := false })
        ((inputs, focusIndex, done), false)
    else ((inputs.map (fun input => typed input msg), focusIndex, done), false)
  | .other => ((inputs.map (fun input => typed input msg), focusIndex, done), false)

/-- Method `ProjectForm.Update`, with the flag telling whether it returns `tea.Quit`. -/
def ProjectForm.Update (typed : TextInput → Msg → TextInput) (m : ProjectForm) (msg : Msg) :
    ProjectForm × Bool :=
  let r := formUpdate typed m.inputs m.focusIndex m.done msg
  ({ m with inputs := r.1.1, focusIndex := r.1.2.1, done := r.1.2.2 }, r.2)

/-- Method `TaskForm.Update`, with the flag telling whether it returns `tea.Quit`. -/
def TaskForm.Update (typed : TextInput → Msg → TextInput) (m : TaskForm) (msg : Msg) :
    TaskForm × Bool :=
  let r := formUpdate typed m.inputs m.focusIndex m.done msg
  ({ m with inputs := r.1.1, focusIndex := r.1.2.1, done := r.1.2.2 }, r.2)

/-- The text of input `i` of a form, as `m.inputs[i].Value()` reads it. -/
def inputValue (inputs : List TextInput) (i : Nat) : String :=
  match inputs[i]? with
  | some input => input.value
  | none => ""

/-- Method `IncomeChart.Update`: the month selection of the chart. -/
def IncomeChart.Update (ic : IncomeChart) (msg : Msg) : IncomeChart :=
  match msg with
  | .key s =>
    if s = "left" then
      if ic.selected > 0 then { ic with selected := ic.selected - 1 }
      else if ic.selected = -1 then { ic with selected := 11 }
      else ic
    else if s = "right" then
      if ic.selected < 11 then { ic with selected := ic.selected + 1 } else ic
    else if s = "esc" then { ic with selected := -1 }
    else ic
  | .other => ic

end ui

/-- What the libraries contribute to `main.go`. -/
structure Lib where
  /-- The `float64` operations of the income chart. -/
  float : FloatOps
  /-- The value `strconv.ParseFloat(s, 64)` returns (its error is dropped by `main.go`). -/
  parseFloat : String → Float64
  /-- Method `textinput.Model.Update`. -/
  typed : ui.TextInput → Msg → ui.TextInput

/-- What the environment contributes to one call of `Update`. -/
structure Env where
  /-- The civil date of the clock. -/
  today : Date
  /-- The first reading of the clock taken by the storage. -/
  now1 : Time
  /-- The second reading of the clock taken by the storage. -/
  now2 : Time
  /-- The value `Save` returns if it is called. -/
  save : Option Error

/-- Go `t.Format("2006-01-02")`. -/
def formatDate (t : Date) : String :=
  appendInt t.year 4 ++ "-" ++ appendInt t.month 2 ++ "-" ++ appendInt t.day 2

/-- Struct `ProjectList` of `main.go`, without its drawing style. -/
structure ProjectList where
  projects : List Project
  selected : Int
deriving DecidableEq, Repr

/-- Struct `TaskTable` of `main.go`. -/
structure TaskTable where
  tasks : List Task
  cursor : Int
  focused : String
deriving DecidableEq, Repr

/-- Struct `model` of `main.go`; the storage it points to is kept inside. -/
structure model where
  storage : Storage
  activeView : String
  projectList : ProjectList
  taskTable : TaskTable
  projectForm : ui.ProjectForm
  taskForm : ui.TaskForm
  incomeChart : ui.IncomeChart
deriving DecidableEq, Repr

/-- Function `initialModel`, from the storage that `NewStorage` returned. -/
def initialModel (storage : Storage) : model :=
  { storage := storage,
    activeView := "projects",
    projectList := { projects := GetProjects storage, selected := 0 },
    taskTable := { tasks := [], cursor := 0, focused := "waiting" },
    projectForm := ui.NewProjectForm,
    taskForm := ui.NewTaskForm 0,
    incomeChart := ui.NewIncomeChart }

/-- A Go index expression `xs[i]` with an `int` index: `none` is the run-time panic. -/
def index {α : Type} (xs : List α) (i : Int) : Option α :=
  if 0 ≤ i then xs[i.toNat]? else none

/-- Function `filterTasks` of `main.go`. -/
def filterTasks (tasks : List Task) (status : String) : List Task :=
  tasks.foldl (fun filtered task => if task.Status = status then filtered ++ [task] else filtered)
    []

/-- The tasks of the focused column of the task table (the `switch m.taskTable.focused` of
`main.go`); no column gives the nil slice. -/
def focusedTasks (t : TaskTable) : List Task :=
  if t.focused = "waiting" then filterTasks t.tasks TaskStatusWaiting
  else if t.focused = "in_progress" then filterTasks t.tasks TaskStatusInProgress
  else if t.focused = "done" then filterTasks t.tasks TaskStatusDone
  else []

/-- The `currentTask` pointer of the task handlers: `some none` is nil, `none` is the panic
of `tasks[cursor]` with a negative cursor. -/
def currentTask (t : TaskTable) : Option (Option Task) :=
  if t.cursor < (focusedTasks t).length then
    match index (focusedTasks t) t.cursor with
    | some task => some (some task)
    | none => none
  else some none

/-- The conversion of the stored projects to `ui.Project` values in the `tab` handler. -/
def toUIProjects (projects : List Project) : List ui.Project :=
  projects.map (fun p =>
    { ID := p.ID, Name := p.Name, Client := p.Client, Cost := p.Cost, Deadline := p.Deadline,
      Status := p.Status,
      Tasks := p.Tasks.map (fun t =>
        { ID := t.ID, ProjectID := t.ProjectID, Title := t.Title,
          Description := t.Description, Status := t.Status }) })

/-- What the key switch at the top of `Update` does with a message. -/
inductive KeyResult where
  /-- An index expression was out of range. -/
  | panic
  /-- A branch executed `return m, cmd`; the flag says whether `cmd` is `tea.Quit`. -/
  | returned (m : model) (quit : Bool)
  /-- No branch returned; the model is as it was. -/
  | fallThrough

/-- The status the `s` key of the task view moves a task to; a status outside the three
known ones leaves `newStatus` at its zero value, the empty string. -/
def nextStatus (status : String) : String :=
  if status = TaskStatusWaiting then TaskStatusInProgress
  else if status = TaskStatusInProgress then TaskStatusDone
  else if status = TaskStatusDone then TaskStatusWaiting
  else ""

/-- The wrap-around of lines 241 to 245 of `main.go`. -/
def wrapSelected (selected : Int) (len : Nat) : Int :=
  if selected ≥ (len : Int) then 0
  else if selected < 0 then (len : Int) - 1
  else selected

/-- The clamping of lines 195 to 200 of `main.go`, after a project was deleted. -/
def clampSelected (selected : Int) (len : Nat) : Int :=
  let selected : Int := if selected ≥ (len : Int) then (len : Int) - 1 else selected
  if selected < 0 then 0 else selected

/-- The `switch keyMsg.String()` at the top of `model.Update`. -/
def handleKey (L : Lib) (e : Env) (m : model) (s : String) : KeyResult :=
  if s = "q" ∨ s = "ctrl+c" then .returned m true
  else if s = "tab" then
    if m.activeView = "projects" then
      .returned
        { m with activeView := "tasks",
                 taskTable := { m.taskTable with tasks := GetTasks m.storage } } false
    else if m.activeView = "tasks" then
      .returned
        { m with activeView := "income",
                 projectList := { m.projectList with projects := GetProjects m.storage },
                 incomeChart := m.incomeChart.UpdateData L.float e.today
                   (toUIProjects (GetProjects m.storage)) } false
    else if m.activeView = "income" then .returned { m with activeView := "projects" } false
    else .returned m false
  else if s = "n" then
    if m.activeView = "projects" then
      .returned { m with activeView := "new_project", projectForm := ui.NewProjectForm } false
    else .fallThrough
  else if s = "t" then
    if m.activeView = "projects" ∧ m.projectList.projects.length > 0 then
      match index m.projectList.projects m.projectList.selected with
      | none => .panic
      | some project =>
        .returned { m with activeView := "new_task", taskForm := ui.NewTaskForm project.ID }
          false
    else .fallThrough
  else if s = "s" then
    if m.activeView = "tasks" then
      match currentTask m.taskTable with
      | none => .panic
      | some none => .returned m false
      | some (some task) =>
        let newStatus := nextStatus task.Status
        let completedDate := if newStatus = TaskStatusDone then formatDate e.today else ""
        let storage :=
          (UpdateTaskStatus m.storage task.ProjectID task.ID newStatus completedDate e.now1
            e.save).1
        .returned
          { m with storage := storage,
                   taskTable := { m.taskTable with tasks := GetTasks storage } } false
    else if m.activeView = "projects" ∧ m.projectList.projects.length > 0 then
      match index m.projectList.projects m.projectList.selected with
      | none => .panic
      | some project =>
        let newStatus := if project.Status = "Completed" then "Active" else "Completed"
        let storage := (UpdateProjectStatus m.storage project.ID newStatus e.save).1
        .returned
          { m with storage := storage,
                   projectList := { m.projectList with projects := GetProjects storage } }
          false
    else .fallThrough
  else if s = "d" then
    if m.activeView = "projects" ∧ m.projectList.projects.length > 0 then
      match index m.projectList.projects m.projectList.selected with
      | none => .panic
      | some project =>
        let storage := (DeleteProject m.storage project.ID e.save).1
        let projects := GetProjects storage
        .returned
          { m with storage := storage,
                   projectList :=
                     { projects := projects,
                       selected := clampSelected m.projectList.selected projects.length } }
          false
    else if m.activeView = "tasks" then
      match currentTask m.taskTable with
      | none => .panic
      | some none => .returned m false
      | some (some task) =>
        let storage := (DeleteTask m.storage task.ProjectID task.ID e.save).1
        .returned
          { m with storage := storage,
                   taskTable := { m.taskTable with tasks := GetTasks storage } } false
    else .fallThrough
  else if s = "esc" then
    if m.activeView = "new_project" ∨ m.activeView = "new_task" then
      .returned { m with activeView := "projects" } false
    else .fallThrough
  else if s = "up" ∨ s = "down" ∨ s = "left" ∨ s = "right" then
    if m.activeView = "projects" then
      let selected : Int :=
        if s = "up" then m.projectList.selected - 1
        else if s = "down" then m.projectList.selected + 1
        else m.projectList.selected
      .returned
        { m with projectList :=
            { m.projectList with
                selected := wrapSelected selected m.projectList.projects.length } } false
    else if m.activeView = "tasks" then
      if s = "left" then
        let focused :=
          if m.taskTable.focused = "in_progress" then "waiting"
          else if m.taskTable.focused = "done" then "in_progress"
          else m.taskTable.focused
        .returned { m with taskTable := { m.taskTable with focused := focused, cursor := 0 } }
          false
      else if s = "right" then
        let focused :=
          if m.taskTable.focused = "waiting" then "in_progress"
          else if m.taskTable.focused = "in_progress" then "done"
          else m.taskTable.focused
        .returned { m with taskTable := { m.taskTable with focused := focused, cursor := 0 } }
          false
      else if s = "up" then
        let cursor : Int := m.taskTable.cursor - 1
        let cursor : Int :=
          if cursor < 0 then ((focusedTasks m.taskTable).length : Int) - 1 else cursor
        .returned { m with taskTable := { m.taskTable with cursor := cursor } } false
      else
        let cursor : Int := m.taskTable.cursor + 1
        let cursor : Int :=
          if cursor ≥ ((focusedTasks m.taskTable).length : Int) then 0 else cursor
        .returned { m with taskTable := { m.taskTable with cursor := cursor } } false
    else .fallThrough
  else .fallThrough

/-- The `switch m.activeView` at the bottom of `model.Update`, reached when the key switch did
not return; the flag says whether the command handed back is `tea.Quit`. -/
def viewUpdate (L : Lib) (e : Env) (m : model) (msg : Msg) : model × Bool :=
  if m.activeView = "income" then
    ({ m with incomeChart := m.incomeChart.Update msg }, false)
  else if m.activeView = "new_project" then
    let r := m.projectForm.Update L.typed msg
    if r.1.done then
      let newProject : Project :=
        { ID := 0,
          Name := ui.inputValue r.1.inputs 0,
          Client := ui.inputValue r.1.inputs 1,
          Cost := L.parseFloat (ui.inputValue r.1.inputs 2),
          Deadline := ui.inputValue r.1.inputs 3,
          Status := "",
          Tasks := [] }
      let storage := (AddProject m.storage newProject e.save).1
      ({ m with projectForm := r.1, storage := storage,
                projectList := { m.projectList with projects := GetProjects storage },
                activeView := "projects" }, r.2)
    else ({ m with projectForm := r.1 }, r.2)
  else if m.activeView = "new_task" then
    let r := m.taskForm.Update L.typed msg
    if r.1.done then
      let newTask : Task :=
        { ID := 0, ProjectID := 0,
          Title := ui.inputValue r.1.inputs 0,
          Description := ui.inputValue r.1.inputs 1,
          Deadline := ui.inputValue r.1.inputs 2,
          Status := TaskStatusWaiting,
          CompletedDate := "", CreatedAt := 0, UpdatedAt := 0 }
      let storage := (AddTask m.storage r.1.projectID newTask e.now1 e.now2 e.save).1
      ({ m with taskForm := r.1, storage := storage,
                projectList := { m.projectList with projects := GetProjects storage },
                taskTable := { m.taskTable with tasks := GetTasks storage },
                activeView := "projects" }, r.2)
    else ({ m with taskForm := r.1 }, r.2)
  else (m, false)

/-- Method `model.Update`: the model after the message and whether `tea.Quit` is returned;
`none` when an index expression panics. -/
def model.Update (L : Lib) (e : Env) (m : model) (msg : Msg) : Option (model × Bool) :=
  match msg with
  | .key s =>
    match handleKey L e m s with
    | .panic => none
    | .returned m quit => some (m, quit)
    | .fallThrough => some (viewUpdate L e m msg)
  | .other => some (viewUpdate L e m msg)

/-- The program fed with a sequence of messages, each with its environment: `Update` is
applied until the messages run out or `tea.Quit` ends the program; `none` is a panic. -/
def runProgram (L : Lib) : model → List (Env × Msg) → Option model
  | m, [] => some m
  | m, (e, msg) :: rest =>
    match m.Update L e msg with
    | none => none
    | some (m', true) => some m'
    | some (m', false) => runProgram L m' rest

/-- The projects that the specification books into the bucket of a month: those that are
Completed and whose deadline parses to a date of the month with that label. -/
def ui.bookedInto (label : String) (projects : List ui.Project) : List ui.Project :=
  projects.filter
    (fun p => decide (p.Status = "Completed")
      && decide ((parseDate p.Deadline).map formatMonthYear = some label))

/-- The bucket of a month in the words of the specification, on top of what the bucket held
before: the costs of the booked projects added up in input order, and one `name ($cost)`
line for each of them. -/
def ui.specBucket (F : FloatOps) (projects : List ui.Project) (before : ui.MonthIncome) :
    ui.MonthIncome :=
  { Month := before.Month,
    Income := (ui.bookedInto before.Month projects).foldl (fun acc p => F.add acc p.Cost)
      before.Income,
    Projects := before.Projects
      ++ (ui.bookedInto before.Month projects).map
          (fun p => p.Name ++ " ($" ++ F.format2 p.Cost ++ ")") }

/-- A dataset stored out of ID order whose last elements carry the largest IDs: projects 3,
1, 7 and, in project 1, tasks 4, 2, 9. -/
def unorderedDataset : Storage :=
  Storage.mk "data.json"
    [{ mkProject "A" "Active" with ID := 3 },
     { mkProject "B" "Active" with
         ID := 1,
         Tasks := [{ mkTask "x" "Waiting" with ID := 4, ProjectID := 1 },
                   { mkTask "y" "Waiting" with ID := 2, ProjectID := 1 },
                   { mkTask "z" "Waiting" with ID := 9, ProjectID := 1 }] },
     { mkProject "C" "Active" with ID := 7 }]

/-! ## Listing order of `GetProjects` -/

/-- The accumulator pair of the `GetProjects` loop, started from any pair of slices. -/
theorem getProjects_loop (ps : List Project) (acc : List Project × List Project) :
    ps.foldl
      (fun (acc : List Project × List Project) project =>
        if project.Status = "Completed" then (acc.1, acc.2 ++ [project])
        else (acc.1 ++ [project], acc.2)) acc
    = (acc.1 ++ ps.filter (fun p => decide (p.Status ≠ "Completed")),
       acc.2 ++ ps.filter (fun p => decide (p.Status = "Completed"))) := by
  induction ps generalizing acc with
  | nil => simp
  | cons p ps ih =>
    rw [List.foldl_cons, ih]
    by_cases h : p.Status = "Completed" <;> simp [h]

/-- Closed form of `GetProjects`: the non-completed projects followed by the completed ones. -/
theorem getProjects_eq (s : Storage) :
    GetProjects s
      = s.Projects.filter (fun p => decide (p.Status ≠ "Completed"))
        ++ s.Projects.filter (fun p => decide (p.Status = "Completed")) := by
  simp [GetProjects, getProjects_loop]

/-- Re-filtering the partition by a status other than the pivot gives the plain filter. -/
theorem filter_active_of_partition (ps : List Project) :
    (ps.filter (fun p => decide (p.Status ≠ "Completed"))
      ++ ps.filter (fun p => decide (p.Status = "Completed"))).filter
        (fun p => decide (p.Status = "Active"))
    = ps.filter (fun p => decide (p.Status = "Active")) := by
  have hne : ¬ ("Active" : String) = "Completed" := by decide
  rw [List.filter_append, List.filter_filter, List.filter_filter]
  have h1 : ps.filter (fun p => decide (p.Status = "Active") && decide (p.Status = "Completed"))
      = [] := by
    rw [List.filter_eq_nil_iff]
    intro p _ hp
    simp only [Bool.and_eq_true, decide_eq_true_eq] at hp
    exact hne (hp.1 ▸ hp.2)
  rw [h1, List.append_nil]
  apply List.filter_congr
  intro p _
  by_cases h : p.Status = "Active"
  · simp [h, hne]
  · simp [h]

/-- Re-filtering the partition by the pivot status gives the plain filter. -/
theorem filter_completed_of_partition (ps : List Project) :
    (ps.filter (fun p => decide (p.Status ≠ "Completed"))
      ++ ps.filter (fun p => decide (p.Status = "Completed"))).filter
        (fun p => decide (p.Status = "Completed"))
    = ps.filter (fun p => decide (p.Status = "Completed")) := by
  rw [List.filter_append, List.filter_filter, List.filter_filter]
  have h1 : ps.filter
      (fun p => decide (p.Status = "Completed") && decide (p.Status ≠ "Completed")) = [] := by
    rw [List.filter_eq_nil_iff]
    intro p _ hp
    simp only [Bool.and_eq_true, decide_eq_true_eq] at hp
    exact hp.2 hp.1
  rw [h1, List.nil_append]
  apply List.filter_congr
  intro p _
  simp

/-- The partition is a rearrangement of the list. -/
theorem partition_perm (ps : List Project) :
    (ps.filter (fun p => decide (p.Status ≠ "Completed"))
      ++ ps.filter (fun p => decide (p.Status = "Completed"))).Perm ps := by
  have h := List.filter_append_perm (fun p : Project => decide (p.Status = "Completed")) ps
  refine (List.perm_append_comm.trans ?_).trans h
  apply List.Perm.append_left
  apply List.Perm.of_eq
  apply List.filter_congr
  intro p _
  simp

/-- In a list made of a block without the pivot status and a block with it, an Active entry
sits at a smaller index than any Completed entry. -/
theorem active_before_completed (A C : List Project)
    (hA : ∀ p ∈ A, p.Status ≠ "Completed") (hC : ∀ p ∈ C, p.Status = "Completed")
    (i j : Nat) (hi : i < (A ++ C).length) (hj : j < (A ++ C).length)
    (hact : ((A ++ C)[i]).Status = "Active") (hcomp : ((A ++ C)[j]).Status = "Completed") :
    i < j := by
  have hne : ¬ ("Active" : String) = "Completed" := by decide
  have hiA : i < A.length := by
    by_contra hcon
    have hge : A.length ≤ i := Nat.le_of_not_lt hcon
    rw [List.getElem_append_right hge] at hact
    have hlen : i - A.length < C.length := by rw [List.length_append] at hi; omega
    have hmem : C[i - A.length] ∈ C := List.mem_iff_getElem.mpr ⟨_, hlen, rfl⟩
    have hc := hC _ hmem
    rw [hact] at hc
    exact hne hc
  have hjA : A.length ≤ j := by
    by_contra hcon
    have hlt : j < A.length := Nat.lt_of_not_le hcon
    rw [List.getElem_append_left hlt] at hcomp
    exact hA _ (List.mem_iff_getElem.mpr ⟨_, hlt, rfl⟩) hcomp
  omega

/-- Claim C1. `GetProjects` returns a rearrangement of the stored projects (same multiset) in
which every Active project sits before every Completed one, the Active projects keep their
stored relative order and so do the Completed ones; on
`[Completed A, Active B, Active C, Completed D]` it returns `[B, C, A, D]`. `GetProjects`
only reads the storage object: it yields a list and no new dataset. -/
theorem C1_getProjects_stable_partition (s : Storage) :
    (GetProjects s).Perm s.Projects
    ∧ (∀ (i j : Nat) (hi : i < (GetProjects s).length) (hj : j < (GetProjects s).length),
        ((GetProjects s)[i]).Status = "Active" → ((GetProjects s)[j]).Status = "Completed" →
        i < j)
    ∧ (GetProjects s).filter (fun p => decide (p.Status = "Active"))
        = s.Projects.filter (fun p => decide (p.Status = "Active"))
    ∧ (GetProjects s).filter (fun p => decide (p.Status = "Completed"))
        = s.Projects.filter (fun p => decide (p.Status = "Completed"))
    ∧ GetProjects (Storage.mk "data.json"
        [mkProject "A" "Completed", mkProject "B" "Active",
         mkProject "C" "Active", mkProject "D" "Completed"])
      = [mkProject "B" "Active", mkProject "C" "Active",
         mkProject "A" "Completed", mkProject "D" "Completed"] := by
  refine ⟨?_, ?_, ?_, ?_, ?_⟩
  · rw [getProjects_eq]; exact partition_perm _
  · intro i j hi hj hact hcomp
    have key := active_before_completed
      (s.Projects.filter (fun p => decide (p.Status ≠ "Completed")))
      (s.Projects.filter (fun p => decide (p.Status = "Completed")))
      (by intro p hp; simpa using (List.mem_filter.mp hp).2)
      (by intro p hp; simpa using (List.mem_filter.mp hp).2)
    simp only [getProjects_eq] at hi hj hact hcomp
    exact key i j hi hj hact hcomp
  · rw [getProjects_eq]; exact filter_active_of_partition _
  · rw [getProjects_eq]; exact filter_completed_of_partition _
  · decide

/-! ## What each loop does to the project list -/

theorem addTaskLoop_some {projectID : Int} {task : Task} {c u : Time}
    {ps ps' : List Project} (h : addTaskLoop projectID task c u ps = some ps') :
    ∃ pre p post, ps = pre ++ p :: post ∧ p.ID = projectID ∧ (∀ q ∈ pre, q.ID ≠ projectID)
      ∧ ps' = pre ++ { p with Tasks := p.Tasks ++ [stampTask p projectID task c u] } :: post := by
  induction ps generalizing ps' with
  | nil => simp [addTaskLoop] at h
  | cons a as ih =>
    unfold addTaskLoop at h
    split at h
    · rename_i ha
      refine ⟨[], a, as, rfl, ha, by simp, ?_⟩
      simpa using (Option.some.inj h).symm
    · rename_i ha
      cases hrec : addTaskLoop projectID task c u as with
      | none => simp [hrec] at h
      | some r =>
        rw [hrec] at h
        obtain ⟨pre, p, post, h1, h2, h3, h4⟩ := ih hrec
        refine ⟨a :: pre, p, post, by simp [h1], h2, ?_, ?_⟩
        · intro q hq
          rcases List.mem_cons.mp hq with rfl | hq
          · exact ha
          · exact h3 q hq
        · have : ps' = a :: r := by simpa using (Option.some.inj h).symm
          simp [this, h4]

theorem addTaskLoop_none {projectID : Int} {task : Task} {c u : Time} {ps : List Project} :
    addTaskLoop projectID task c u ps = none ↔ ∀ q ∈ ps, q.ID ≠ projectID := by
  induction ps with
  | nil => simp [addTaskLoop]
  | cons a as ih =>
    unfold addTaskLoop
    by_cases ha : a.ID = projectID
    · simp [ha]
    · simp [ha, ih]

theorem updateProjectStatusLoop_some {projectID : Int} {status : String}
    {ps ps' : List Project} (h : updateProjectStatusLoop projectID status ps = some ps') :
    ∃ pre p post, ps = pre ++ p :: post ∧ p.ID = projectID ∧ (∀ q ∈ pre, q.ID ≠ projectID)
      ∧ ps' = pre ++ { p with Status := status } :: post := by
  induction ps generalizing ps' with
  | nil => simp [updateProjectStatusLoop] at h
  | cons a as ih =>
    unfold updateProjectStatusLoop at h
    split at h
    · rename_i ha
      refine ⟨[], a, as, rfl, ha, by simp, ?_⟩
      simpa using (Option.some.inj h).symm
    · rename_i ha
      cases hrec : updateProjectStatusLoop projectID status as with
      | none => simp [hrec] at h
      | some r =>
        rw [hrec] at h
        obtain ⟨pre, p, post, h1, h2, h3, h4⟩ := ih hrec
        refine ⟨a :: pre, p, post, by simp [h1], h2, ?_, ?_⟩
        · intro q hq
          rcases List.mem_cons.mp hq with rfl | hq
          · exact ha
          · exact h3 q hq
        · have : ps' = a :: r := by simpa using (Option.some.inj h).symm
          simp [this, h4]

theorem deleteProjectLoop_some {projectID : Int} {ps ps' : List Project}
    (h : deleteProjectLoop projectID ps = some ps') :
    ∃ pre p post, ps = pre ++ p :: post ∧ p.ID = projectID ∧ (∀ q ∈ pre, q.ID ≠ projectID)
      ∧ ps' = pre ++ post := by
  induction ps generalizing ps' with
  | nil => simp [deleteProjectLoop] at h
  | cons a as ih =>
    unfold deleteProjectLoop at h
    split at h
    · rename_i ha
      refine ⟨[], a, as, rfl, ha, by simp, ?_⟩
      simpa using (Option.some.inj h).symm
    · rename_i ha
      cases hrec : deleteProjectLoop projectID as with
      | none => simp [hrec] at h
      | some r =>
        rw [hrec] at h
        obtain ⟨pre, p, post, h1, h2, h3, h4⟩ := ih hrec
        refine ⟨a :: pre, p, post, by simp [h1], h2, ?_, ?_⟩
        · intro q hq
          rcases List.mem_cons.mp hq with rfl | hq
          · exact ha
          · exact h3 q hq
        · have : ps' = a :: r := by simpa using (Option.some.inj h).symm
          simp [this, h4]

theorem deleteProjectLoop_none {projectID : Int} {ps : List Project} :
    deleteProjectLoop projectID ps = none ↔ ∀ q ∈ ps, q.ID ≠ projectID := by
  induction ps with
  | nil => simp [deleteProjectLoop]
  | cons a as ih =>
    unfold deleteProjectLoop
    by_cases ha : a.ID = projectID
    · simp [ha]
    · simp [ha, ih]

theorem updateTaskStatusInner_some {taskID : Int} {status d : String} {now : Time}
    {ts ts' : List Task} (h : updateTaskStatusInner taskID status d now ts = some ts') :
    ∃ pre t post, ts = pre ++ t :: post ∧ t.ID = taskID ∧ (∀ q ∈ pre, q.ID ≠ taskID)
      ∧ ts' = pre ++ setTaskStatus t status d now :: post := by
  induction ts generalizing ts' with
  | nil => simp [updateTaskStatusInner] at h
  | cons a as ih =>
    unfold updateTaskStatusInner at h
    split at h
    · rename_i ha
      refine ⟨[], a, as, rfl, ha, by simp, ?_⟩
      simpa using (Option.some.inj h).symm
    · rename_i ha
      cases hrec : updateTaskStatusInner taskID status d now as with
      | none => simp [hrec] at h
      | some r =>
        rw [hrec] at h
        obtain ⟨pre, p, post, h1, h2, h3, h4⟩ := ih hrec
        refine ⟨a :: pre, p, post, by simp [h1], h2, ?_, ?_⟩
        · intro q hq
          rcases List.mem_cons.mp hq with rfl | hq
          · exact ha
          · exact h3 q hq
        · have : ts' = a :: r := by simpa using (Option.some.inj h).symm
          simp [this, h4]

theorem updateTaskStatusInner_none {taskID : Int} {status d : String} {now : Time}
    {ts : List Task} :
    updateTaskStatusInner taskID status d now ts = none ↔ ∀ q ∈ ts, q.ID ≠ taskID := by
  induction ts with
  | nil => simp [updateTaskStatusInner]
  | cons a as ih =>
    unfold updateTaskStatusInner
    by_cases ha : a.ID = taskID
    · simp [ha]
    · simp [ha, ih]

theorem deleteTaskInner_some {taskID : Int} {ts ts' : List Task}
    (h : deleteTaskInner taskID ts = some ts') :
    ∃ pre t post, ts = pre ++ t :: post ∧ t.ID = taskID ∧ (∀ q ∈ pre, q.ID ≠ taskID)
      ∧ ts' = pre ++ post := by
  induction ts generalizing ts' with
  | nil => simp [deleteTaskInner] at h
  | cons a as ih =>
    unfold deleteTaskInner at h
    split at h
    · rename_i ha
      refine ⟨[], a, as, rfl, ha, by simp, ?_⟩
      simpa using (Option.some.inj h).symm
    · rename_i ha
      cases hrec : deleteTaskInner taskID as with
      | none => simp [hrec] at h
      | some r =>
        rw [hrec] at h
        obtain ⟨pre, p, post, h1, h2, h3, h4⟩ := ih hrec
        refine ⟨a :: pre, p, post, by simp [h1], h2, ?_, ?_⟩
        · intro q hq
          rcases List.mem_cons.mp hq with rfl | hq
          · exact ha
          · exact h3 q hq
        · have : ts' = a :: r := by simpa using (Option.some.inj h).symm
          simp [this, h4]

theorem deleteTaskInner_none {taskID : Int} {ts : List Task} :
    deleteTaskInner taskID ts = none ↔ ∀ q ∈ ts, q.ID ≠ taskID := by
  induction ts with
  | nil => simp [deleteTaskInner]
  | cons a as ih =>
    unfold deleteTaskInner
    by_cases ha : a.ID = taskID
    · simp [ha]
    · simp [ha, ih]

theorem updateTaskStatusLoop_some {projectID taskID : Int} {status d : String} {now : Time}
    {ps ps' : List Project}
    (h : updateTaskStatusLoop projectID taskID status d now ps = some ps') :
    ∃ pre p post ts, ps = pre ++ p :: post ∧ p.ID = projectID
      ∧ updateTaskStatusInner taskID status d now p.Tasks = some ts
      ∧ (∀ q ∈ pre, q.ID = projectID → ∀ t ∈ q.Tasks, t.ID ≠ taskID)
      ∧ ps' = pre ++ { p with Tasks := ts } :: post := by
  induction ps generalizing ps' with
  | nil => simp [updateTaskStatusLoop] at h
  | cons a as ih =>
    unfold updateTaskStatusLoop at h
    have tail : ∀ (hskip : a.ID = projectID → ∀ t ∈ a.Tasks, t.ID ≠ taskID),
        (updateTaskStatusLoop projectID taskID status d now as).map (fun r => a :: r)
          = some ps' →
        ∃ pre p post ts, a :: as = pre ++ p :: post ∧ p.ID = projectID
          ∧ updateTaskStatusInner taskID status d now p.Tasks = some ts
          ∧ (∀ q ∈ pre, q.ID = projectID → ∀ t ∈ q.Tasks, t.ID ≠ taskID)
          ∧ ps' = pre ++ { p with Tasks := ts } :: post := by
      intro hskip h
      cases hrec : updateTaskStatusLoop projectID taskID status d now as with
      | none => simp [hrec] at h
      | some r =>
        rw [hrec] at h
        obtain ⟨pre, p, post, ts, h1, h2, h3, h4, h5⟩ := ih hrec
        refine ⟨a :: pre, p, post, ts, by simp [h1], h2, h3, ?_, ?_⟩
        · intro q hq
          rcases List.mem_cons.mp hq with rfl | hq
          · exact hskip
          · exact h4 q hq
        · have : ps' = a :: r := by simpa using (Option.some.inj h).symm
          simp [this, h5]
    by_cases ha : a.ID = projectID
    · rw [if_pos ha] at h
      cases hin : updateTaskStatusInner taskID status d now a.Tasks with
      | some ts =>
        rw [hin] at h
        refine ⟨[], a, as, ts, rfl, ha, hin, by simp, ?_⟩
        simpa using (Option.some.inj h).symm
      | none =>
        rw [hin] at h
        exact tail (fun _ => updateTaskStatusInner_none.mp hin) h
    · rw [if_neg ha] at h
      exact tail (fun hc => absurd hc ha) h

theorem updateTaskStatusLoop_none {projectID taskID : Int} {status d : String} {now : Time}
    {ps : List Project} :
    updateTaskStatusLoop projectID taskID status d now ps = none
      ↔ ∀ q ∈ ps, q.ID = projectID → ∀ t ∈ q.Tasks, t.ID ≠ taskID := by
  induction ps with
  | nil => simp [updateTaskStatusLoop]
  | cons a as ih =>
    unfold updateTaskStatusLoop
    by_cases ha : a.ID = projectID
    · rw [if_pos ha]
      cases hin : updateTaskStatusInner taskID status d now a.Tasks with
      | some ts =>
        have hne : ¬ ∀ q ∈ a.Tasks, q.ID ≠ taskID := fun hc => by
          rw [updateTaskStatusInner_none.mpr hc] at hin
          exact Option.noConfusion hin
        constructor
        · intro hc
          exact Option.noConfusion hc
        · intro hall
          exact absurd (hall a (List.mem_cons_self _ _) ha) hne
      | none =>
        have hn := updateTaskStatusInner_none.mp hin
        simp only [Option.map_eq_none', ih, List.mem_cons, forall_eq_or_imp]
        constructor
        · intro h
          exact ⟨fun _ => hn, h⟩
        · intro h
          exact h.2
    · rw [if_neg ha]
      simp only [Option.map_eq_none', ih, List.mem_cons, forall_eq_or_imp]
      constructor
      · intro h
        exact ⟨fun hc => absurd hc ha, h⟩
      · intro h
        exact h.2

theorem deleteTaskLoop_some {projectID taskID : Int} {ps ps' : List Project}
    (h : deleteTaskLoop projectID taskID ps = some ps') :
    ∃ pre p post ts, ps = pre ++ p :: post ∧ p.ID = projectID
      ∧ deleteTaskInner taskID p.Tasks = some ts
      ∧ (∀ q ∈ pre, q.ID = projectID → ∀ t ∈ q.Tasks, t.ID ≠ taskID)
      ∧ ps' = pre ++ { p with Tasks := ts } :: post := by
  induction ps generalizing ps' with
  | nil => simp [deleteTaskLoop] at h
  | cons a as ih =>
    unfold deleteTaskLoop at h
    have tail : ∀ (hskip : a.ID = projectID → ∀ t ∈ a.Tasks, t.ID ≠ taskID),
        (deleteTaskLoop projectID taskID as).map (fun r => a :: r) = some ps' →
        ∃ pre p post ts, a :: as = pre ++ p :: post ∧ p.ID = projectID
          ∧ deleteTaskInner taskID p.Tasks = some ts
          ∧ (∀ q ∈ pre, q.ID = projectID → ∀ t ∈ q.Tasks, t.ID ≠ taskID)
          ∧ ps' = pre ++ { p with Tasks := ts } :: post := by
      intro hskip h
      cases hrec : deleteTaskLoop projectID taskID as with
      | none => simp [hrec] at h
      | some r =>
        rw [hrec] at h
        obtain ⟨pre, p, post, ts, h1, h2, h3, h4, h5⟩ := ih hrec
        refine ⟨a :: pre, p, post, ts, by simp [h1], h2, h3, ?_, ?_⟩
        · intro q hq
          rcases List.mem_cons.mp hq with rfl | hq
          · exact hskip
          · exact h4 q hq
        · have : ps' = a :: r := by simpa using (Option.some.inj h).symm
          simp [this, h5]
    by_cases ha : a.ID = projectID
    · rw [if_pos ha] at h
      cases hin : deleteTaskInner taskID a.Tasks with
      | some ts =>
        rw [hin] at h
        refine ⟨[], a, as, ts, rfl, ha, hin, by simp, ?_⟩
        simpa using (Option.some.inj h).symm
      | none =>
        rw [hin] at h
        exact tail (fun _ => deleteTaskInner_none.mp hin) h
    · rw [if_neg ha] at h
      exact tail (fun hc => absurd hc ha) h

/-! ## Effect of each call on the list of project IDs -/

theorem addProject_projects (s : Storage) (project : Project) (save : Option Error) :
    ∃ p, (AddProject s project save).1.Projects = s.Projects ++ [p]
      ∧ p.ID = nextProjectID s.Projects ∧ p.Tasks = project.Tasks := by
  unfold AddProject nextProjectID
  rw [List.getLast?_map]
  cases hl : s.Projects.getLast? with
  | none =>
    by_cases hs : project.Status = ""
    · exact ⟨{ project with ID := 1, Status := "Active" }, by simp [hs], rfl, rfl⟩
    · exact ⟨{ project with ID := 1 }, by simp [hs], rfl, rfl⟩
  | some last =>
    by_cases hs : project.Status = ""
    · exact ⟨{ project with ID := last.ID + 1, Status := "Active" }, by simp [hs], rfl, rfl⟩
    · exact ⟨{ project with ID := last.ID + 1 }, by simp [hs], rfl, rfl⟩

theorem addTask_ids (s : Storage) (projectID : Int) (task : Task) (c u : Time)
    (save : Option Error) :
    (AddTask s projectID task c u save).1.Projects.map (fun p => p.ID)
      = s.Projects.map (fun p => p.ID) := by
  unfold AddTask
  cases h : addTaskLoop projectID task c u s.Projects with
  | none => rfl
  | some ps =>
    obtain ⟨pre, p, post, h1, -, -, h4⟩ := addTaskLoop_some h
    simp [h1, h4]

theorem updateProjectStatus_ids (s : Storage) (projectID : Int) (status : String)
    (save : Option Error) :
    (UpdateProjectStatus s projectID status save).1.Projects.map (fun p => p.ID)
      = s.Projects.map (fun p => p.ID) := by
  unfold UpdateProjectStatus
  cases h : updateProjectStatusLoop projectID status s.Projects with
  | none => rfl
  | some ps =>
    obtain ⟨pre, p, post, h1, -, -, h4⟩ := updateProjectStatusLoop_some h
    simp [h1, h4]

theorem updateTaskStatus_ids (s : Storage) (projectID taskID : Int) (status d : String)
    (now : Time) (save : Option Error) :
    (UpdateTaskStatus s projectID taskID status d now save).1.Projects.map (fun p => p.ID)
      = s.Projects.map (fun p => p.ID) := by
  unfold UpdateTaskStatus
  cases h : updateTaskStatusLoop projectID taskID status d now s.Projects with
  | none => rfl
  | some ps =>
    obtain ⟨pre, p, post, ts, h1, -, -, -, h4⟩ := updateTaskStatusLoop_some h
    simp [h1, h4]

theorem deleteTask_ids (s : Storage) (projectID taskID : Int) (save : Option Error) :
    (DeleteTask s projectID taskID save).1.Projects.map (fun p => p.ID)
      = s.Projects.map (fun p => p.ID) := by
  unfold DeleteTask
  cases h : deleteTaskLoop projectID taskID s.Projects with
  | none => rfl
  | some ps =>
    obtain ⟨pre, p, post, ts, h1, -, -, -, h4⟩ := deleteTaskLoop_some h
    simp [h1, h4]

theorem deleteProject_sublist (s : Storage) (projectID : Int) (save : Option Error) :
    (DeleteProject s projectID save).1.Projects.Sublist s.Projects := by
  unfold DeleteProject
  cases h : deleteProjectLoop projectID s.Projects with
  | none => exact List.Sublist.refl _
  | some ps =>
    obtain ⟨pre, p, post, h1, -, -, h4⟩ := deleteProjectLoop_some h
    simp only [h1, h4]
    exact List.Sublist.append_left (List.sublist_cons_self p post) pre

/-- Deleting a project whose ID is not the ID stored last leaves the last ID in place. -/
theorem deleteProject_last (s : Storage) (projectID : Int) (save : Option Error)
    (hlast : (s.Projects.map (fun p => p.ID)).getLast? ≠ some projectID) :
    ((DeleteProject s projectID save).1.Projects.map (fun p => p.ID)).getLast?
      = (s.Projects.map (fun p => p.ID)).getLast? := by
  unfold DeleteProject
  cases h : deleteProjectLoop projectID s.Projects with
  | none => rfl
  | some ps =>
    obtain ⟨pre, p, post, h1, h2, -, h4⟩ := deleteProjectLoop_some h
    simp only [h4]
    rw [h1] at hlast ⊢
    cases post with
    | nil =>
      exfalso
      apply hlast
      simp [h2]
    | cons q qs => simp

/-! ## IDs given out by `AddProject` -/

theorem addedProjectID_eq (s : Storage) (project : Project) (save : Option Error) :
    addedProjectID s project save = nextProjectID s.Projects := by
  obtain ⟨p, h1, h2, -⟩ := addProject_projects s project save
  unfold addedProjectID
  rw [h1, List.getLast?_concat]
  exact h2

theorem nextProjectID_addProject (s : Storage) (project : Project) (save : Option Error) :
    nextProjectID (AddProject s project save).1.Projects = nextProjectID s.Projects + 1 := by
  obtain ⟨p, h1, h2, -⟩ := addProject_projects s project save
  rw [h1]
  conv_lhs => unfold nextProjectID
  simp [h2]

theorem nextProjectID_congr {ps qs : List Project}
    (h : (qs.map (fun p => p.ID)).getLast? = (ps.map (fun p => p.ID)).getLast?) :
    nextProjectID qs = nextProjectID ps := by
  unfold nextProjectID
  rw [h]

/-- From any dataset: while no deletion hits the project stored last, the IDs given out grow
strictly and none is below the ID that was next at the start. -/
theorem assignedProjectIDs_increasing (ops : List Op) :
    ∀ s : Storage, deletionsSpareLast s ops = true →
      (assignedProjectIDs s ops).Pairwise (fun a b => a < b)
      ∧ ∀ a ∈ assignedProjectIDs s ops, nextProjectID s.Projects ≤ a := by
  induction ops with
  | nil => intro s _; simp [assignedProjectIDs]
  | cons op ops ih =>
    intro s h
    cases op with
    | addProject project save =>
      simp only [deletionsSpareLast] at h
      obtain ⟨ih1, ih2⟩ := ih _ h
      simp only [step, nextProjectID_addProject] at ih2
      simp only [assignedProjectIDs, addedProjectID_eq, List.pairwise_cons, List.mem_cons,
        forall_eq_or_imp, le_refl, true_and]
      refine ⟨⟨fun a ha => ?_, ih1⟩, fun a ha => ?_⟩
      · have := ih2 a ha
        omega
      · have := ih2 a ha
        omega
    | deleteProject projectID save =>
      simp only [deletionsSpareLast, Bool.and_eq_true, decide_eq_true_eq] at h
      obtain ⟨ih1, ih2⟩ := ih _ h.2
      simp only [step, nextProjectID_congr (deleteProject_last s projectID save h.1)] at ih2
      exact ⟨ih1, ih2⟩
    | addTask projectID task c u save =>
      simp only [deletionsSpareLast] at h
      obtain ⟨ih1, ih2⟩ := ih _ h
      simp only [step, nextProjectID_congr (congrArg List.getLast?
        (addTask_ids s projectID task c u save))] at ih2
      exact ⟨ih1, ih2⟩
    | updateProjectStatus projectID status save =>
      simp only [deletionsSpareLast] at h
      obtain ⟨ih1, ih2⟩ := ih _ h
      simp only [step, nextProjectID_congr (congrArg List.getLast?
        (updateProjectStatus_ids s projectID status save))] at ih2
      exact ⟨ih1, ih2⟩
    | updateTaskStatus projectID taskID status d now save =>
      simp only [deletionsSpareLast] at h
      obtain ⟨ih1, ih2⟩ := ih _ h
      simp only [step, nextProjectID_congr (congrArg List.getLast?
        (updateTaskStatus_ids s projectID taskID status d now save))] at ih2
      exact ⟨ih1, ih2⟩
    | deleteTask projectID taskID save =>
      simp only [deletionsSpareLast] at h
      obtain ⟨ih1, ih2⟩ := ih _ h
      simp only [step, nextProjectID_congr (congrArg List.getLast?
        (deleteTask_ids s projectID taskID save))] at ih2
      exact ⟨ih1, ih2⟩

/-- Claim C2 fails as stated. After `AddProject`, `AddProject`, `DeleteProject(2)`,
`AddProject` on the empty dataset the IDs given out are 1, 2, 2: the ID of the deleted
project is given out a second time, so the sequence is not strictly increasing. -/
theorem C2_id_reused_after_delete :
    assignedProjectIDs (Storage.empty "data.json")
        [Op.addProject (mkProject "A" "") none, Op.addProject (mkProject "B" "") none,
         Op.deleteProject 2 none, Op.addProject (mkProject "C" "") none] = [1, 2, 2]
    ∧ ¬ ∀ (dataFile : String) (ops : List Op),
        (∀ op ∈ ops, op.isAddOrDeleteProject = true) →
        (assignedProjectIDs (Storage.empty dataFile) ops).Pairwise (fun a b => a < b) := by
  refine ⟨by decide, fun h => ?_⟩
  have h1 := h "data.json"
    [Op.addProject (mkProject "A" "") none, Op.addProject (mkProject "B" "") none,
     Op.deleteProject 2 none, Op.addProject (mkProject "C" "") none] (by decide)
  revert h1
  decide

/-- Claim C2, amended. Starting from the empty dataset, for every sequence of calls in which no
`DeleteProject` names the ID of the project stored last at that moment, the IDs given out by
the successive `AddProject` calls are strictly increasing (so none is given out twice), also
when other projects are deleted in between. -/
theorem C2_assigned_ids_increasing (dataFile : String) (ops : List Op)
    (h : deletionsSpareLast (Storage.empty dataFile) ops = true) :
    (assignedProjectIDs (Storage.empty dataFile) ops).Pairwise (fun a b => a < b) :=
  (assignedProjectIDs_increasing ops _ h).1

/-- A run with a deletion between additions that meets the hypothesis of C2 amended. -/
theorem C2_assigned_ids_increasing_witness :
    deletionsSpareLast (Storage.empty "data.json")
        [Op.addProject (mkProject "A" "") none, Op.addProject (mkProject "B" "") none,
         Op.deleteProject 1 none, Op.addProject (mkProject "C" "") none] = true
    ∧ (assignedProjectIDs (Storage.empty "data.json")
        [Op.addProject (mkProject "A" "") none, Op.addProject (mkProject "B" "") none,
         Op.deleteProject 1 none, Op.addProject (mkProject "C" "") none]).Pairwise
          (fun a b => a < b) :=
  ⟨by decide, C2_assigned_ids_increasing "data.json" _ (by decide)⟩

/-! ## The allocation rule on lists of IDs -/

theorem foldl_max_ge (xs : List Int) (x : Int) :
    x ≤ xs.foldl max x ∧ ∀ y ∈ xs, y ≤ xs.foldl max x := by
  induction xs generalizing x with
  | nil => simp
  | cons a as ih =>
    obtain ⟨h1, h2⟩ := ih (max x a)
    simp only [List.foldl_cons, List.mem_cons, forall_eq_or_imp]
    exact ⟨le_trans (le_max_left x a) h1, le_trans (le_max_right x a) h1, h2⟩

theorem foldl_max_mem (xs : List Int) (x : Int) : xs.foldl max x ∈ x :: xs := by
  induction xs generalizing x with
  | nil => simp
  | cons a as ih =>
    have h := ih (max x a)
    simp only [List.foldl_cons, List.mem_cons] at h ⊢
    rcases h with h | h
    · rcases max_choice x a with hm | hm
      · left; rw [h, hm]
      · right; left; rw [h, hm]
    · right; right; exact h

/-- The value `maxID` returns is the maximum: it occurs in the list and bounds the list. -/
theorem maxID_spec (ids : List Int) (m : Int) (h : maxID ids = some m) :
    m ∈ ids ∧ ∀ y ∈ ids, y ≤ m := by
  cases ids with
  | nil => simp [maxID] at h
  | cons x xs =>
    simp only [maxID, Option.some.injEq] at h
    subst h
    refine ⟨foldl_max_mem xs x, ?_⟩
    intro y hy
    rcases List.mem_cons.mp hy with rfl | hy
    · exact (foldl_max_ge xs y).1
    · exact (foldl_max_ge xs x).2 y hy

/-- In a strictly increasing list every element is at most the last one. -/
theorem le_last_of_increasing (ids : List Int) (h : idsIncreasing ids) (last : Int)
    (hl : ids.getLast? = some last) : ∀ y ∈ ids, y ≤ last := by
  obtain ⟨init, rfl⟩ := List.getLast?_eq_some_iff.mp hl
  unfold idsIncreasing at h
  rw [List.pairwise_append] at h
  intro y hy
  rcases List.mem_append.mp hy with hy | hy
  · exact le_of_lt (h.2.2 y hy last (by simp))
  · simp only [List.mem_singleton] at hy
    exact le_of_eq hy

/-- On a strictly increasing list the last element is the maximum. -/
theorem maxID_of_increasing (ids : List Int) (h : idsIncreasing ids) :
    maxID ids = ids.getLast? := by
  cases hl : ids.getLast? with
  | none =>
    rw [List.getLast?_eq_none_iff] at hl
    subst hl
    rfl
  | some last =>
    cases hm : maxID ids with
    | none =>
      cases ids with
      | nil => simp at hl
      | cons x xs => simp [maxID] at hm
    | some m =>
      obtain ⟨hmem, hub⟩ := maxID_spec ids m hm
      have h1 := le_last_of_increasing ids h last hl m hmem
      have hlast : last ∈ ids := by
        obtain ⟨init, rfl⟩ := List.getLast?_eq_some_iff.mp hl
        simp
      have h2 := hub last hlast
      have : m = last := le_antisymm h1 h2
      rw [this]

/-- Last-plus-one and max-plus-one agree on a strictly increasing list. -/
theorem specNextID_of_increasing (ids : List Int) (h : idsIncreasing ids) :
    specNextID ids = (match ids.getLast? with | none => 1 | some last => last + 1) := by
  unfold specNextID
  rw [maxID_of_increasing ids h]

/-- Appending last-plus-one (or 1) keeps a list strictly increasing. -/
theorem idsIncreasing_concat_next (ids : List Int) (h : idsIncreasing ids) :
    idsIncreasing (ids ++ [match ids.getLast? with | none => 1 | some last => last + 1]) := by
  unfold idsIncreasing
  rw [List.pairwise_append]
  refine ⟨h, by simp, ?_⟩
  intro a ha b hb
  simp only [List.mem_singleton] at hb
  cases hl : ids.getLast? with
  | none =>
    rw [List.getLast?_eq_none_iff] at hl
    subst hl
    simp at ha
  | some last =>
    rw [hl] at hb
    have := le_last_of_increasing ids h last hl a ha
    simp only at hb
    omega

theorem nodup_of_idsIncreasing (ids : List Int) (h : idsIncreasing ids) : ids.Nodup := by
  unfold idsIncreasing at h
  exact h.imp (fun hab => ne_of_lt hab)

/-! ## C3: the ID given to a new project and to a new task -/

theorem stampTask_ID (p : Project) (projectID : Int) (task : Task) (c u : Time) :
    (stampTask p projectID task c u).ID
      = (match (p.Tasks.map (fun t => t.ID)).getLast? with
         | none => 1
         | some last => last + 1) := by
  unfold stampTask
  rw [List.getLast?_map]
  cases p.Tasks.getLast? <;> rfl

/-- Claim C3 fails as stated. With projects stored in the order ID 5, ID 3, `AddProject`
gives out 4 (last + 1) while max + 1 is 6; with tasks stored in the order ID 5, ID 3 in
project 1, `AddTask(1, _)` appends a task with ID 4 while max + 1 is 6. -/
theorem C3_last_plus_one_is_not_max_plus_one :
    addedProjectID
        (Storage.mk "data.json"
          [{ mkProject "A" "Active" with ID := 5 }, { mkProject "B" "Active" with ID := 3 }])
        (mkProject "N" "") none = 4
    ∧ specNextID [5, 3] = 6
    ∧ (AddTask
        (Storage.mk "data.json"
          [{ mkProject "A" "Active" with
              ID := 1,
              Tasks := [{ mkTask "x" "Waiting" with ID := 5, ProjectID := 1 },
                        { mkTask "y" "Waiting" with ID := 3, ProjectID := 1 }] }])
        1 (mkTask "z" "Waiting") 7 7 none).1.Projects
      = [{ mkProject "A" "Active" with
            ID := 1,
            Tasks := [{ mkTask "x" "Waiting" with ID := 5, ProjectID := 1 },
                      { mkTask "y" "Waiting" with ID := 3, ProjectID := 1 },
                      { mkTask "z" "Waiting" with
                          ID := 4, ProjectID := 1, CreatedAt := 7, UpdatedAt := 7 }] }]
    ∧ ¬ ∀ (s : Storage) (project : Project) (save : Option Error),
        addedProjectID s project save = specNextID (s.Projects.map (fun p => p.ID)) := by
  refine ⟨by decide, by decide, by decide, fun h => ?_⟩
  have h1 := h
    (Storage.mk "data.json"
      [{ mkProject "A" "Active" with ID := 5 }, { mkProject "B" "Active" with ID := 3 }])
    (mkProject "N" "") none
  revert h1
  decide

/-- Below the largest `int` the increment of the machine is the plain `+ 1`. -/
theorem goSucc_of_lt (a : Int) (h : a < maxInt) : goSucc a = a + 1 := by
  unfold goSucc
  rw [if_neg (ne_of_lt h)]

/-- When the last element is the largest, last-plus-one and max-plus-one agree. -/
theorem specNextID_of_lastIsLargest (ids : List Int) (h : lastIsLargest ids) :
    specNextID ids = (match ids.getLast? with | none => 1 | some last => last + 1) := by
  unfold specNextID
  cases hl : ids.getLast? with
  | none =>
    rw [List.getLast?_eq_none_iff] at hl
    subst hl
    rfl
  | some last =>
    have hub := (h last (by rw [hl]; exact rfl)).2
    have hlast : last ∈ ids := by
      obtain ⟨init, rfl⟩ := List.getLast?_eq_some_iff.mp hl
      simp
    cases hm : maxID ids with
    | none =>
      cases ids with
      | nil => simp at hl
      | cons x xs => simp [maxID] at hm
    | some m =>
      obtain ⟨hmem, hmax⟩ := maxID_spec ids m hm
      have : m = last := le_antisymm (hub m hmem) (hmax last hlast)
      rw [this]

/-- The loop of `AddTask` stops at the first project carrying the ID. -/
theorem addTaskLoop_at {projectID : Int} (task : Task) (c u : Time)
    (pre : List Project) (p : Project) (post : List Project)
    (hpre : ∀ q ∈ pre, q.ID ≠ projectID) (hp : p.ID = projectID) :
    addTaskLoop projectID task c u (pre ++ p :: post)
      = some (pre ++ { p with Tasks := p.Tasks ++ [stampTask p projectID task c u] } :: post) := by
  induction pre with
  | nil => simp [addTaskLoop, hp]
  | cons a as ih =>
    have ha : a.ID ≠ projectID := hpre a (List.mem_cons_self _ _)
    have ih2 := ih (fun x hx => hpre x (List.mem_cons_of_mem _ hx))
    simp [addTaskLoop, ha, ih2]

/-- Claim C3, amended. In a dataset whose last stored project carries the largest project ID,
that ID lying below the largest Go `int`, `AddProject` gives the new project the ID
`max(existing project IDs) + 1`, or 1 when there are no projects. And when the first project
with ID `projectID` stores last the task with the largest ID of its list, that ID lying below
the largest Go `int`, `AddTask(projectID, task)` appends to that project one task whose ID is
`max(IDs of the tasks already in that project) + 1`, or 1 when it has no tasks. In both cases
the ID is the successor that the machine computes from the last stored ID. -/
theorem C3_new_ids_are_max_plus_one (s : Storage) (project : Project) (save : Option Error)
    (projectID : Int) (task : Task) (c u : Time) (save2 : Option Error) :
    (lastIsLargest (s.Projects.map (fun p => p.ID)) →
      addedProjectID s project save = specNextID (s.Projects.map (fun p => p.ID))
      ∧ ∀ last ∈ (s.Projects.map (fun p => p.ID)).getLast?,
          addedProjectID s project save = goSucc last)
    ∧ (∀ pre p post, s.Projects = pre ++ p :: post → p.ID = projectID →
        (∀ q ∈ pre, q.ID ≠ projectID) →
        lastIsLargest (p.Tasks.map (fun t => t.ID)) →
        ∃ newTask,
          (AddTask s projectID task c u save2).1.Projects
              = pre ++ { p with Tasks := p.Tasks ++ [newTask] } :: post
          ∧ newTask.ID = specNextID (p.Tasks.map (fun t => t.ID))
          ∧ ∀ last ∈ (p.Tasks.map (fun t => t.ID)).getLast?, newTask.ID = goSucc last) := by
  constructor
  · intro hP
    refine ⟨?_, ?_⟩
    · rw [addedProjectID_eq, specNextID_of_lastIsLargest _ hP]
      rfl
    · intro last hlast
      rw [addedProjectID_eq, goSucc_of_lt last (hP last hlast).1]
      unfold nextProjectID
      rw [Option.mem_def.mp hlast]
  · intro pre p post hdec hp hpre hT
    refine ⟨stampTask p projectID task c u, ?_, ?_, ?_⟩
    · unfold AddTask
      rw [hdec, addTaskLoop_at task c u pre p post hpre hp]
    · rw [stampTask_ID, specNextID_of_lastIsLargest _ hT]
    · intro last hlast
      rw [stampTask_ID, goSucc_of_lt last (hT last hlast).1, Option.mem_def.mp hlast]

/-- On the unordered dataset (projects 3, 1, 7; tasks 4, 2, 9 in project 1) the new project
gets ID 8 and the new task of project 1 gets ID 10. -/
theorem C3_new_ids_are_max_plus_one_witness :
    lastIsLargest (unorderedDataset.Projects.map (fun p => p.ID))
    ∧ unorderedDataset.Projects.map (fun p => p.ID) = [3, 1, 7]
    ∧ (addedProjectID unorderedDataset (mkProject "N" "") none
          = specNextID (unorderedDataset.Projects.map (fun p => p.ID))
        ∧ ∀ last ∈ (unorderedDataset.Projects.map (fun p => p.ID)).getLast?,
            addedProjectID unorderedDataset (mkProject "N" "") none = goSucc last)
    ∧ specNextID (unorderedDataset.Projects.map (fun p => p.ID)) = 8
    ∧ lastIsLargest [4, 2, 9]
    ∧ specNextID [4, 2, 9] = 10
    ∧ ∃ newTask,
        (AddTask unorderedDataset 1 (mkTask "w" "Waiting") 7 7 none).1.Projects
          = [{ mkProject "A" "Active" with ID := 3 }]
            ++ { mkProject "B" "Active" with
                   ID := 1,
                   Tasks := [{ mkTask "x" "Waiting" with ID := 4, ProjectID := 1 },
                             { mkTask "y" "Waiting" with ID := 2, ProjectID := 1 },
                             { mkTask "z" "Waiting" with ID := 9, ProjectID := 1 }]
                     ++ [newTask] }
               :: [{ mkProject "C" "Active" with ID := 7 }]
        ∧ newTask.ID = specNextID [4, 2, 9]
        ∧ ∀ last ∈ [(4 : Int), 2, 9].getLast?, newTask.ID = goSucc last :=
  ⟨by decide, by decide,
   (C3_new_ids_are_max_plus_one unorderedDataset (mkProject "N" "") none 1
      (mkTask "w" "Waiting") 7 7 none).1 (by decide),
   by decide, by decide, by decide,
   (C3_new_ids_are_max_plus_one unorderedDataset (mkProject "N" "") none 1
      (mkTask "w" "Waiting") 7 7 none).2
      [{ mkProject "A" "Active" with ID := 3 }]
      { mkProject "B" "Active" with
          ID := 1,
          Tasks := [{ mkTask "x" "Waiting" with ID := 4, ProjectID := 1 },
                    { mkTask "y" "Waiting" with ID := 2, ProjectID := 1 },
                    { mkTask "z" "Waiting" with ID := 9, ProjectID := 1 }] }
      [{ mkProject "C" "Active" with ID := 7 }]
      rfl rfl (by decide) (by decide)⟩

/-! ## Invariants of runs -/

/-- Induction along a run: a property kept by every admitted call holds at the end. -/
theorem run_induction (Inv : Storage → Prop) (ok : Op → Prop)
    (hstep : ∀ s op, ok op → Inv s → Inv (step s op)) :
    ∀ (ops : List Op) (s : Storage), Inv s → (∀ op ∈ ops, ok op) → Inv (run s ops) := by
  intro ops
  induction ops with
  | nil => intro s hs _; exact hs
  | cons op ops ih =>
    intro s hs hok
    have h1 : ok op := hok op (List.mem_cons_self _ _)
    have h2 : ∀ o ∈ ops, ok o := fun o ho => hok o (List.mem_cons_of_mem _ ho)
    exact ih (step s op) (hstep s op h1 hs) h2

/-- A property `Q` of single projects holds after a call as soon as a property `P` held of
every project before, `P` implies `Q`, and the rewriting that the call applies to the one
project it touches leads from `P` to `Q`. -/
theorem step_forall_projects_of (P Q : Project → Prop) (s : Storage) (op : Op)
    (hs : ∀ p ∈ s.Projects, P p) (hPQ : ∀ p, P p → Q p)
    (hadd : ∀ project save, op = Op.addProject project save →
      ∀ p : Project, p.ID = nextProjectID s.Projects → p.Tasks = project.Tasks → Q p)
    (haddTask : ∀ projectID task c u save, op = Op.addTask projectID task c u save →
      ∀ p : Project, P p → p.ID = projectID →
        Q { p with Tasks := p.Tasks ++ [stampTask p projectID task c u] })
    (hstatus : ∀ (p : Project) (status : String), P p → Q { p with Status := status })
    (hupd : ∀ projectID taskID status d now save,
      op = Op.updateTaskStatus projectID taskID status d now save →
      ∀ (p : Project) (ts : List Task), P p →
        updateTaskStatusInner taskID status d now p.Tasks = some ts → Q { p with Tasks := ts })
    (hdel : ∀ (p : Project) (taskID : Int) (ts : List Task), P p →
        deleteTaskInner taskID p.Tasks = some ts → Q { p with Tasks := ts }) :
    ∀ p ∈ (step s op).Projects, Q p := by
  have replaced : ∀ (pre post : List Project) (p p' : Project),
      s.Projects = pre ++ p :: post → Q p' → ∀ q ∈ pre ++ p' :: post, Q q := by
    intro pre post p p' hdec hp' q hq
    rcases List.mem_append.mp hq with hq | hq
    · exact hPQ q (hs q (by rw [hdec]; exact List.mem_append_left _ hq))
    · rcases List.mem_cons.mp hq with rfl | hq
      · exact hp'
      · exact hPQ q (hs q (by rw [hdec]; simp [hq]))
  have inS : ∀ (pre post : List Project) (p : Project),
      s.Projects = pre ++ p :: post → P p := by
    intro pre post p hdec
    exact hs p (by rw [hdec]; simp)
  cases op with
  | addProject project save =>
    obtain ⟨p, h1, h2, h3⟩ := addProject_projects s project save
    intro q hq
    simp only [step, h1, List.mem_append, List.mem_singleton] at hq
    rcases hq with hq | rfl
    · exact hPQ q (hs q hq)
    · exact hadd project save rfl q h2 h3
  | addTask projectID task c u save =>
    simp only [step, AddTask]
    cases h : addTaskLoop projectID task c u s.Projects with
    | none => exact fun q hq => hPQ q (hs q hq)
    | some ps =>
      obtain ⟨pre, p, post, h1, h2, -, h4⟩ := addTaskLoop_some h
      simp only [h4]
      exact replaced pre post p _ h1
        (haddTask projectID task c u save rfl p (inS pre post p h1) h2)
  | updateProjectStatus projectID status save =>
    simp only [step, UpdateProjectStatus]
    cases h : updateProjectStatusLoop projectID status s.Projects with
    | none => exact fun q hq => hPQ q (hs q hq)
    | some ps =>
      obtain ⟨pre, p, post, h1, -, -, h4⟩ := updateProjectStatusLoop_some h
      simp only [h4]
      exact replaced pre post p _ h1 (hstatus p status (inS pre post p h1))
  | updateTaskStatus projectID taskID status d now save =>
    simp only [step, UpdateTaskStatus]
    cases h : updateTaskStatusLoop projectID taskID status d now s.Projects with
    | none => exact fun q hq => hPQ q (hs q hq)
    | some ps =>
      obtain ⟨pre, p, post, ts, h1, -, h3, -, h5⟩ := updateTaskStatusLoop_some h
      simp only [h5]
      exact replaced pre post p _ h1
        (hupd projectID taskID status d now save rfl p ts (inS pre post p h1) h3)
  | deleteProject projectID save =>
    intro q hq
    exact hPQ q (hs q ((deleteProject_sublist s projectID save).subset hq))
  | deleteTask projectID taskID save =>
    simp only [step, DeleteTask]
    cases h : deleteTaskLoop projectID taskID s.Projects with
    | none => exact fun q hq => hPQ q (hs q hq)
    | some ps =>
      obtain ⟨pre, p, post, ts, h1, -, h3, -, h5⟩ := deleteTaskLoop_some h
      simp only [h5]
      exact replaced pre post p _ h1 (hdel p taskID ts (inS pre post p h1) h3)

/-- A property of single projects survives a call as soon as it survives the rewriting that
the call applies to the one project it touches. -/
theorem step_forall_projects (Q : Project → Prop) (s : Storage) (op : Op)
    (hs : ∀ p ∈ s.Projects, Q p)
    (hadd : ∀ project save, op = Op.addProject project save →
      ∀ p : Project, p.ID = nextProjectID s.Projects → p.Tasks = project.Tasks → Q p)
    (haddTask : ∀ projectID task c u save, op = Op.addTask projectID task c u save →
      ∀ p : Project, Q p → p.ID = projectID →
        Q { p with Tasks := p.Tasks ++ [stampTask p projectID task c u] })
    (hstatus : ∀ (p : Project) (status : String), Q p → Q { p with Status := status })
    (hupd : ∀ projectID taskID status d now save,
      op = Op.updateTaskStatus projectID taskID status d now save →
      ∀ (p : Project) (ts : List Task), Q p →
        updateTaskStatusInner taskID status d now p.Tasks = some ts → Q { p with Tasks := ts })
    (hdel : ∀ (p : Project) (taskID : Int) (ts : List Task), Q p →
        deleteTaskInner taskID p.Tasks = some ts → Q { p with Tasks := ts }) :
    ∀ p ∈ (step s op).Projects, Q p :=
  step_forall_projects_of Q Q s op hs (fun _ h => h) hadd haddTask hstatus hupd hdel

/-- Every call keeps the project IDs in strictly increasing stored order. -/
theorem step_project_ids_increasing (s : Storage) (op : Op)
    (h : idsIncreasing (s.Projects.map (fun p => p.ID))) :
    idsIncreasing ((step s op).Projects.map (fun p => p.ID)) := by
  cases op with
  | addProject project save =>
    obtain ⟨p, h1, h2, -⟩ := addProject_projects s project save
    have := idsIncreasing_concat_next _ h
    simp only [step, h1, List.map_append, List.map_cons, List.map_nil, h2]
    exact this
  | addTask projectID task c u save =>
    simp only [step, addTask_ids]; exact h
  | updateProjectStatus projectID status save =>
    simp only [step, updateProjectStatus_ids]; exact h
  | updateTaskStatus projectID taskID status d now save =>
    simp only [step, updateTaskStatus_ids]; exact h
  | deleteProject projectID save =>
    unfold idsIncreasing at h ⊢
    exact List.Pairwise.sublist ((deleteProject_sublist s projectID save).map _) h
  | deleteTask projectID taskID save =>
    simp only [step, deleteTask_ids]; exact h

/-- In every dataset built from the empty one, whatever the arguments of the calls, the
project IDs are stored in strictly increasing order. -/
theorem run_project_ids_increasing (dataFile : String) (ops : List Op) :
    idsIncreasing ((run (Storage.empty dataFile) ops).Projects.map (fun p => p.ID)) := by
  have := run_induction (fun s => idsIncreasing (s.Projects.map (fun p => p.ID)))
    (fun _ => True) (fun s op _ hs => step_project_ids_increasing s op hs) ops
    (Storage.empty dataFile) (by simp [Storage.empty, idsIncreasing]) (fun _ _ => trivial)
  exact this

/-! ## C4: IDs are pairwise distinct -/

theorem setTaskStatus_ID (t : Task) (status d : String) (now : Time) :
    (setTaskStatus t status d now).ID = t.ID := by
  unfold setTaskStatus
  split <;> rfl

theorem setTaskStatus_ProjectID (t : Task) (status d : String) (now : Time) :
    (setTaskStatus t status d now).ProjectID = t.ProjectID := by
  unfold setTaskStatus
  split <;> rfl

theorem updateTaskStatusInner_ids {taskID : Int} {status d : String} {now : Time}
    {ts ts' : List Task} (h : updateTaskStatusInner taskID status d now ts = some ts') :
    ts'.map (fun t => t.ID) = ts.map (fun t => t.ID) := by
  obtain ⟨pre, t, post, h1, -, -, h4⟩ := updateTaskStatusInner_some h
  simp [h1, h4, setTaskStatus_ID]

theorem deleteTaskInner_sublist {taskID : Int} {ts ts' : List Task}
    (h : deleteTaskInner taskID ts = some ts') : ts'.Sublist ts := by
  obtain ⟨pre, t, post, h1, -, -, h4⟩ := deleteTaskInner_some h
  rw [h1, h4]
  exact List.Sublist.append_left (List.sublist_cons_self t post) pre

/-- A call that hands over no ready-made tasks keeps every task list in strictly increasing
ID order. -/
theorem step_task_ids_increasing (s : Storage) (op : Op) (hop : op.addsNoTasks = true)
    (hs : ∀ p ∈ s.Projects, idsIncreasing (p.Tasks.map (fun t => t.ID))) :
    ∀ p ∈ (step s op).Projects, idsIncreasing (p.Tasks.map (fun t => t.ID)) := by
  apply step_forall_projects (fun p => idsIncreasing (p.Tasks.map (fun t => t.ID))) s op hs
  · intro project save hop' p _ hT
    subst hop'
    simp only [Op.addsNoTasks, decide_eq_true_eq] at hop
    simp [hT, hop, idsIncreasing]
  · intro projectID task c u save _ p hp _
    have := idsIncreasing_concat_next _ hp
    simp only [List.map_append, List.map_cons, List.map_nil, stampTask_ID]
    exact this
  · intro p status hp
    exact hp
  · intro projectID taskID status d now save _ p ts hp hin
    simp only [updateTaskStatusInner_ids hin]
    exact hp
  · intro p taskID ts hp hin
    unfold idsIncreasing at hp ⊢
    exact List.Pairwise.sublist ((deleteTaskInner_sublist hin).map _) hp

theorem run_task_ids_increasing (dataFile : String) (ops : List Op)
    (hops : ∀ op ∈ ops, op.addsNoTasks = true) :
    ∀ p ∈ (run (Storage.empty dataFile) ops).Projects,
      idsIncreasing (p.Tasks.map (fun t => t.ID)) := by
  have := run_induction
    (fun s => ∀ p ∈ s.Projects, idsIncreasing (p.Tasks.map (fun t => t.ID)))
    (fun op => op.addsNoTasks = true)
    (fun s op hop hs => step_task_ids_increasing s op hop hs) ops
    (Storage.empty dataFile) (by simp [Storage.empty]) hops
  exact this

/-- Claim C4 fails as stated. `AddProject` stores the task list of the project it is handed
as it is: one call with a project carrying two tasks of ID 7 yields a stored project whose
task IDs are not pairwise distinct. -/
theorem C4_duplicate_task_ids_via_addProject :
    ¬ ∀ (dataFile : String) (ops : List Op),
        ∀ p ∈ (run (Storage.empty dataFile) ops).Projects,
          (p.Tasks.map (fun t => t.ID)).Nodup := by
  intro h
  have h1 := h "data.json"
    [Op.addProject
      { mkProject "A" "" with
          Tasks := [{ mkTask "x" "Waiting" with ID := 7 },
                    { mkTask "y" "Waiting" with ID := 7 }] } none]
  revert h1
  decide

/-- Claim C4, amended. In every dataset reachable from the empty one by any finite sequence of
the six mutating calls with arbitrary arguments, the IDs of the stored projects are pairwise
distinct; and when every project handed to `AddProject` has an empty task list, the IDs of
the tasks within each project are pairwise distinct too. -/
theorem C4_ids_pairwise_distinct (dataFile : String) (ops : List Op) :
    ((run (Storage.empty dataFile) ops).Projects.map (fun p => p.ID)).Nodup
    ∧ ((∀ op ∈ ops, op.addsNoTasks = true) →
        ∀ p ∈ (run (Storage.empty dataFile) ops).Projects,
          (p.Tasks.map (fun t => t.ID)).Nodup) :=
  ⟨nodup_of_idsIncreasing _ (run_project_ids_increasing dataFile ops),
   fun hops p hp => nodup_of_idsIncreasing _ (run_task_ids_increasing dataFile ops hops p hp)⟩

/-- A run through additions, status changes and deletions that meets the hypothesis of C4
amended. -/
theorem C4_ids_pairwise_distinct_witness :
    (∀ op ∈ [Op.addProject (mkProject "A" "") none,
             Op.addTask 1 (mkTask "x" "Waiting") 3 3 none,
             Op.addTask 1 (mkTask "y" "Waiting") 4 4 none,
             Op.deleteTask 1 2 none,
             Op.addTask 1 (mkTask "z" "Waiting") 5 5 none], op.addsNoTasks = true)
    ∧ ∀ p ∈ (run (Storage.empty "data.json")
              [Op.addProject (mkProject "A" "") none,
               Op.addTask 1 (mkTask "x" "Waiting") 3 3 none,
               Op.addTask 1 (mkTask "y" "Waiting") 4 4 none,
               Op.deleteTask 1 2 none,
               Op.addTask 1 (mkTask "z" "Waiting") 5 5 none]).Projects,
        (p.Tasks.map (fun t => t.ID)).Nodup :=
  ⟨by decide, (C4_ids_pairwise_distinct "data.json" _).2 (by decide)⟩

/-! ## IDs handed out in a run stay small -/

/-- One call raises the largest project ID by at most one. -/
theorem step_project_ids_le (s : Storage) (op : Op) (n : Nat)
    (h : ∀ x ∈ s.Projects.map (fun p => p.ID), x ≤ (n : Int)) :
    ∀ x ∈ (step s op).Projects.map (fun p => p.ID), x ≤ (n : Int) + 1 := by
  have weaken : ∀ x ∈ s.Projects.map (fun p => p.ID), x ≤ (n : Int) + 1 :=
    fun x hx => le_trans (h x hx) (by omega)
  cases op with
  | addProject project save =>
    obtain ⟨p, h1, h2, -⟩ := addProject_projects s project save
    intro x hx
    simp only [step, h1, List.map_append, List.map_cons, List.map_nil, List.mem_append,
      List.mem_singleton] at hx
    rcases hx with hx | rfl
    · exact weaken x hx
    · rw [h2]
      unfold nextProjectID
      cases hl : (s.Projects.map (fun p => p.ID)).getLast? with
      | none =>
        simp only
        omega
      | some last =>
        have hmem : last ∈ s.Projects.map (fun p => p.ID) := by
          obtain ⟨init, hinit⟩ := List.getLast?_eq_some_iff.mp hl
          rw [hinit]
          simp
        have := h last hmem
        simp only
        omega
  | addTask projectID task c u save =>
    simp only [step, addTask_ids]; exact weaken
  | updateProjectStatus projectID status save =>
    simp only [step, updateProjectStatus_ids]; exact weaken
  | updateTaskStatus projectID taskID status d now save =>
    simp only [step, updateTaskStatus_ids]; exact weaken
  | deleteProject projectID save =>
    intro x hx
    exact weaken x (((deleteProject_sublist s projectID save).map _).subset hx)
  | deleteTask projectID taskID save =>
    simp only [step, deleteTask_ids]; exact weaken

/-- One call that hands over no ready-made tasks raises the largest task ID by at most one. -/
theorem step_task_ids_le (s : Storage) (op : Op) (n : Nat) (hop : op.addsNoTasks = true)
    (h : ∀ p ∈ s.Projects, ∀ t ∈ p.Tasks, t.ID ≤ (n : Int)) :
    ∀ p ∈ (step s op).Projects, ∀ t ∈ p.Tasks, t.ID ≤ (n : Int) + 1 := by
  apply step_forall_projects_of (fun p => ∀ t ∈ p.Tasks, t.ID ≤ (n : Int))
    (fun p => ∀ t ∈ p.Tasks, t.ID ≤ (n : Int) + 1) s op h
  · intro p hp t ht
    exact le_trans (hp t ht) (by omega)
  · intro project save hop' p _ hT
    subst hop'
    simp only [Op.addsNoTasks, decide_eq_true_eq] at hop
    simp [hT, hop]
  · intro projectID task c u save _ p hp _ t ht
    simp only [List.mem_append, List.mem_singleton] at ht
    rcases ht with ht | rfl
    · exact le_trans (hp t ht) (by omega)
    · rw [stampTask_ID]
      cases hl : (p.Tasks.map (fun t => t.ID)).getLast? with
      | none =>
        simp only
        omega
      | some last =>
        have hmem : last ∈ p.Tasks.map (fun t => t.ID) := by
          obtain ⟨init, hinit⟩ := List.getLast?_eq_some_iff.mp hl
          rw [hinit]
          simp
        obtain ⟨t0, ht0, h0⟩ := List.mem_map.mp hmem
        have hle := hp t0 ht0
        have h1 : t0.ID = last := h0
        show last + 1 ≤ (n : Int) + 1
        omega
  · intro p status hp t ht
    exact le_trans (hp t ht) (by omega)
  · intro projectID taskID status d now save _ p ts hp hin t ht
    have hid : t.ID ∈ ts.map (fun t => t.ID) := List.mem_map_of_mem _ ht
    rw [updateTaskStatusInner_ids hin] at hid
    obtain ⟨t0, ht0, h0⟩ := List.mem_map.mp hid
    have hle := hp t0 ht0
    have h1 : t0.ID = t.ID := h0
    omega
  · intro p taskID ts hp hin t ht
    exact le_trans (hp t ((deleteTaskInner_sublist hin).subset ht)) (by omega)

/-- In a run from the empty dataset no project ID exceeds the number of calls made, so the
machine bound is out of reach of every run of fewer than `maxInt` calls. -/
theorem run_project_ids_le_length (dataFile : String) (ops : List Op) :
    ∀ p ∈ (run (Storage.empty dataFile) ops).Projects, p.ID ≤ (ops.length : Int) := by
  have gen : ∀ (ops : List Op) (s : Storage) (n : Nat),
      (∀ x ∈ s.Projects.map (fun p => p.ID), x ≤ (n : Int)) →
      ∀ x ∈ (run s ops).Projects.map (fun p => p.ID), x ≤ ((n + ops.length : Nat) : Int) := by
    intro ops
    induction ops with
    | nil => intro s n h; simpa [run] using h
    | cons op ops ih =>
      intro s n h
      have h1 := step_project_ids_le s op n h
      have h2 := ih (step s op) (n + 1) (by exact_mod_cast h1)
      intro x hx
      have := h2 x hx
      simp only [List.length_cons]
      have e : n + 1 + ops.length = n + (ops.length + 1) := by omega
      rw [e] at this
      exact this
  intro p hp
  have := gen ops (Storage.empty dataFile) 0 (by simp [Storage.empty])
    p.ID (List.mem_map_of_mem _ hp)
  simpa using this

/-- In a run from the empty dataset in which no call hands over ready-made tasks, no task ID
exceeds the number of calls made. -/
theorem run_task_ids_le_length (dataFile : String) (ops : List Op)
    (hops : ∀ op ∈ ops, op.addsNoTasks = true) :
    ∀ p ∈ (run (Storage.empty dataFile) ops).Projects, ∀ t ∈ p.Tasks,
      t.ID ≤ (ops.length : Int) := by
  have gen : ∀ (ops : List Op) (s : Storage) (n : Nat),
      (∀ op ∈ ops, op.addsNoTasks = true) →
      (∀ p ∈ s.Projects, ∀ t ∈ p.Tasks, t.ID ≤ (n : Int)) →
      ∀ p ∈ (run s ops).Projects, ∀ t ∈ p.Tasks, t.ID ≤ ((n + ops.length : Nat) : Int) := by
    intro ops
    induction ops with
    | nil => intro s n _ h; simpa [run] using h
    | cons op ops ih =>
      intro s n hops h
      have h1 := step_task_ids_le s op n (hops op (List.mem_cons_self _ _)) h
      have h2 := ih (step s op) (n + 1) (fun o ho => hops o (List.mem_cons_of_mem _ ho))
        (by exact_mod_cast h1)
      intro p hp t ht
      have := h2 p hp t ht
      simp only [List.length_cons]
      have e : n + 1 + ops.length = n + (ops.length + 1) := by omega
      rw [e] at this
      exact this
  intro p hp t ht
  have := gen ops (Storage.empty dataFile) 0 hops (by simp [Storage.empty]) p hp t ht
  simpa using this

/-! ## C5: the owner reference of every task -/

theorem updateTaskStatusInner_mem {taskID : Int} {status d : String} {now : Time}
    {ts ts' : List Task} (h : updateTaskStatusInner taskID status d now ts = some ts')
    (x : Task) (hx : x ∈ ts') :
    x ∈ ts ∨ ∃ t ∈ ts, x = setTaskStatus t status d now := by
  obtain ⟨pre, t, post, h1, -, -, h4⟩ := updateTaskStatusInner_some h
  rw [h4] at hx
  rw [h1]
  rcases List.mem_append.mp hx with hx | hx
  · exact Or.inl (List.mem_append_left _ hx)
  · rcases List.mem_cons.mp hx with rfl | hx
    · exact Or.inr ⟨t, by simp, rfl⟩
    · exact Or.inl (by simp [hx])

/-- A call that hands over no ready-made tasks keeps every task pointing at its owner. -/
theorem step_owner (s : Storage) (op : Op) (hop : op.addsNoTasks = true)
    (hs : ∀ p ∈ s.Projects, ∀ t ∈ p.Tasks, t.ProjectID = p.ID) :
    ∀ p ∈ (step s op).Projects, ∀ t ∈ p.Tasks, t.ProjectID = p.ID := by
  apply step_forall_projects (fun p => ∀ t ∈ p.Tasks, t.ProjectID = p.ID) s op hs
  · intro project save hop' p _ hT
    subst hop'
    simp only [Op.addsNoTasks, decide_eq_true_eq] at hop
    simp [hT, hop]
  · intro projectID task c u save _ p hp hid t ht
    simp only [List.mem_append, List.mem_singleton] at ht
    rcases ht with ht | rfl
    · exact hp t ht
    · exact hid.symm
  · intro p status hp
    exact hp
  · intro projectID taskID status d now save _ p ts hp hin t ht
    rcases updateTaskStatusInner_mem hin t ht with h | ⟨t0, h0, rfl⟩
    · exact hp t h
    · rw [setTaskStatus_ProjectID]
      exact hp t0 h0
  · intro p taskID ts hp hin t ht
    exact hp t ((deleteTaskInner_sublist hin).subset ht)

theorem run_owner (dataFile : String) (ops : List Op)
    (hops : ∀ op ∈ ops, op.addsNoTasks = true) :
    ∀ p ∈ (run (Storage.empty dataFile) ops).Projects, ∀ t ∈ p.Tasks, t.ProjectID = p.ID := by
  have := run_induction
    (fun s => ∀ p ∈ s.Projects, ∀ t ∈ p.Tasks, t.ProjectID = p.ID)
    (fun op => op.addsNoTasks = true)
    (fun s op hop hs => step_owner s op hop hs) ops
    (Storage.empty dataFile) (by simp [Storage.empty]) hops
  exact this

/-- Claim C5 fails as stated. `AddProject` stores the tasks of the project it is handed
without touching their owner field: one call with a project carrying a task whose
`ProjectID` is 99 yields project 1 holding a task that points at a project that does not
exist. -/
theorem C5_foreign_owner_via_addProject :
    ¬ ∀ (dataFile : String) (ops : List Op),
        ∀ p ∈ (run (Storage.empty dataFile) ops).Projects,
          ∀ t ∈ p.Tasks, t.ProjectID = p.ID := by
  intro h
  have h1 := h "data.json"
    [Op.addProject
      { mkProject "A" "" with Tasks := [{ mkTask "x" "Waiting" with ProjectID := 99 }] } none]
  revert h1
  decide

/-- Claim C5, amended. In every dataset reachable from the empty one by any finite sequence of
the mutating calls in which every project handed to `AddProject` has an empty task list,
each task stored in a project has `ProjectID` equal to that project's ID, whatever
`ProjectID` the caller put in the task handed to `AddTask`; so its owner reference resolves
to a stored project. -/
theorem C5_task_owner_resolves (dataFile : String) (ops : List Op)
    (hops : ∀ op ∈ ops, op.addsNoTasks = true) :
    ∀ p ∈ (run (Storage.empty dataFile) ops).Projects, ∀ t ∈ p.Tasks,
      t.ProjectID = p.ID
      ∧ ∃ q ∈ (run (Storage.empty dataFile) ops).Projects, q.ID = t.ProjectID :=
  fun p hp t ht =>
    ⟨run_owner dataFile ops hops p hp t ht, p, hp, (run_owner dataFile ops hops p hp t ht).symm⟩

/-- A run in which `AddTask` is handed a task with a wrong owner field and which meets the
hypothesis of C5 amended. -/
theorem C5_task_owner_resolves_witness :
    (∀ op ∈ [Op.addProject (mkProject "A" "") none,
             Op.addProject (mkProject "B" "") none,
             Op.addTask 2 { mkTask "x" "Waiting" with ProjectID := 99 } 3 3 none],
        op.addsNoTasks = true)
    ∧ ∀ p ∈ (run (Storage.empty "data.json")
              [Op.addProject (mkProject "A" "") none,
               Op.addProject (mkProject "B" "") none,
               Op.addTask 2 { mkTask "x" "Waiting" with ProjectID := 99 } 3 3 none]).Projects,
        ∀ t ∈ p.Tasks,
          t.ProjectID = p.ID
          ∧ ∃ q ∈ (run (Storage.empty "data.json")
              [Op.addProject (mkProject "A" "") none,
               Op.addProject (mkProject "B" "") none,
               Op.addTask 2 { mkTask "x" "Waiting" with ProjectID := 99 } 3 3 none]).Projects,
              q.ID = t.ProjectID :=
  ⟨by decide, C5_task_owner_resolves "data.json" _ (by decide)⟩

/-! ## C6: the completed date and the status `Done` -/

theorem stampTask_completedDateOK (p : Project) (projectID : Int) (task : Task) (c u : Time)
    (h : task.completedDateOK) : (stampTask p projectID task c u).completedDateOK := by
  unfold stampTask
  cases p.Tasks.getLast? <;> exact h

theorem setTaskStatus_completedDateOK (t : Task) (status d : String) (now : Time)
    (h : status = TaskStatusDone → d ≠ "") : (setTaskStatus t status d now).completedDateOK := by
  unfold setTaskStatus Task.completedDateOK
  by_cases hs : status = TaskStatusDone
  · simp only [hs, if_true, iff_true]
    exact h hs
  · simp only [hs, if_false, iff_false, ne_eq, not_true_eq_false, not_false_eq_true]

/-- A call that respects the completed-date rule keeps the rule true of every stored task. -/
theorem step_completedDate (s : Storage) (op : Op) (hop : op.respectsCompletedDate = true)
    (hs : ∀ p ∈ s.Projects, ∀ t ∈ p.Tasks, t.completedDateOK) :
    ∀ p ∈ (step s op).Projects, ∀ t ∈ p.Tasks, t.completedDateOK := by
  apply step_forall_projects (fun p => ∀ t ∈ p.Tasks, t.completedDateOK) s op hs
  · intro project save hop' p _ hT
    subst hop'
    simp only [Op.respectsCompletedDate, decide_eq_true_eq] at hop
    rw [hT]
    exact hop
  · intro projectID task c u save hop' p hp _ t ht
    subst hop'
    simp only [Op.respectsCompletedDate, decide_eq_true_eq] at hop
    simp only [List.mem_append, List.mem_singleton] at ht
    rcases ht with ht | rfl
    · exact hp t ht
    · exact stampTask_completedDateOK p projectID task c u hop
  · intro p status hp
    exact hp
  · intro projectID taskID status d now save hop' p ts hp hin t ht
    subst hop'
    simp only [Op.respectsCompletedDate, decide_eq_true_eq] at hop
    rcases updateTaskStatusInner_mem hin t ht with h | ⟨t0, _, rfl⟩
    · exact hp t h
    · exact setTaskStatus_completedDateOK t0 status d now hop
  · intro p taskID ts hp hin t ht
    exact hp t ((deleteTaskInner_sublist hin).subset ht)

/-- Claim C6 fails as stated. With arbitrary arguments the rule breaks in both directions:
`UpdateTaskStatus(1, 1, Done, "")` leaves a `Done` task with an empty completed date, and
`AddTask` stores a `Waiting` task together with the completed date it was handed. -/
theorem C6_completed_date_rule_broken :
    (¬ ∀ p ∈ (run (Storage.empty "data.json")
              [Op.addProject (mkProject "A" "") none,
               Op.addTask 1 (mkTask "x" "Waiting") 3 3 none,
               Op.updateTaskStatus 1 1 "Done" "" 4 none]).Projects,
        ∀ t ∈ p.Tasks, t.completedDateOK)
    ∧ (¬ ∀ p ∈ (run (Storage.empty "data.json")
              [Op.addProject (mkProject "A" "") none,
               Op.addTask 1 { mkTask "x" "Waiting" with CompletedDate := "2024-03-01" }
                 3 3 none]).Projects,
        ∀ t ∈ p.Tasks, t.completedDateOK)
    ∧ ¬ ∀ (dataFile : String) (ops : List Op),
        ∀ p ∈ (run (Storage.empty dataFile) ops).Projects,
          ∀ t ∈ p.Tasks, t.completedDateOK := by
  refine ⟨by decide, by decide, fun h => ?_⟩
  have h1 := h "data.json"
    [Op.addProject (mkProject "A" "") none,
     Op.addTask 1 (mkTask "x" "Waiting") 3 3 none,
     Op.updateTaskStatus 1 1 "Done" "" 4 none]
  revert h1
  decide

/-- Claim C6, amended. In every dataset reachable from the empty one by any finite sequence of
the mutating calls in which every task handed in (to `AddTask`, or inside a project handed
to `AddProject`) has its completed date set exactly when its status is `Done`, and every
`UpdateTaskStatus` call with status `Done` supplies a non-empty date, every stored task has
its completed date set if and only if its status is `Done`. -/
theorem C6_completed_date_iff_done (dataFile : String) (ops : List Op)
    (hops : ∀ op ∈ ops, op.respectsCompletedDate = true) :
    ∀ p ∈ (run (Storage.empty dataFile) ops).Projects, ∀ t ∈ p.Tasks,
      (t.CompletedDate ≠ "" ↔ t.Status = TaskStatusDone) := by
  have := run_induction
    (fun s => ∀ p ∈ s.Projects, ∀ t ∈ p.Tasks, t.completedDateOK)
    (fun op => op.respectsCompletedDate = true)
    (fun s op hop hs => step_completedDate s op hop hs) ops
    (Storage.empty dataFile) (by simp [Storage.empty]) hops
  exact this

/-- A run that takes a task to `Done` and back and meets the hypothesis of C6 amended. -/
theorem C6_completed_date_iff_done_witness :
    (∀ op ∈ [Op.addProject (mkProject "A" "") none,
             Op.addTask 1 (mkTask "x" "Waiting") 3 3 none,
             Op.addTask 1 (mkTask "y" "Waiting") 4 4 none,
             Op.updateTaskStatus 1 1 "Done" "2024-03-01" 5 none,
             Op.updateTaskStatus 1 2 "Done" "2024-03-02" 6 none,
             Op.updateTaskStatus 1 2 "Waiting" "2024-03-03" 7 none],
        op.respectsCompletedDate = true)
    ∧ ∀ p ∈ (run (Storage.empty "data.json")
              [Op.addProject (mkProject "A" "") none,
               Op.addTask 1 (mkTask "x" "Waiting") 3 3 none,
               Op.addTask 1 (mkTask "y" "Waiting") 4 4 none,
               Op.updateTaskStatus 1 1 "Done" "2024-03-01" 5 none,
               Op.updateTaskStatus 1 2 "Done" "2024-03-02" 6 none,
               Op.updateTaskStatus 1 2 "Waiting" "2024-03-03" 7 none]).Projects,
        ∀ t ∈ p.Tasks, (t.CompletedDate ≠ "" ↔ t.Status = TaskStatusDone) :=
  ⟨by decide, C6_completed_date_iff_done "data.json" _ (by decide)⟩

/-! ## C7: what `UpdateTaskStatus` writes -/

theorem setTaskStatus_eq (t : Task) (status d : String) (now : Time) :
    setTaskStatus t status d now
      = { t with Status := status, UpdatedAt := now,
                 CompletedDate := if status = TaskStatusDone then d else "" } := by
  unfold setTaskStatus
  split <;> rfl

theorem updateTaskStatusInner_at {taskID : Int} (status d : String) (now : Time)
    (pre : List Task) (t : Task) (post : List Task)
    (hpre : ∀ x ∈ pre, x.ID ≠ taskID) (ht : t.ID = taskID) :
    updateTaskStatusInner taskID status d now (pre ++ t :: post)
      = some (pre ++ setTaskStatus t status d now :: post) := by
  induction pre with
  | nil => simp [updateTaskStatusInner, ht]
  | cons a as ih =>
    have ha : a.ID ≠ taskID := hpre a (List.mem_cons_self _ _)
    have ih2 := ih (fun x hx => hpre x (List.mem_cons_of_mem _ hx))
    simp [updateTaskStatusInner, ha, ih2]

theorem updateTaskStatusLoop_at {projectID taskID : Int} (status d : String) (now : Time)
    (pre : List Project) (p : Project) (post : List Project) (ts : List Task)
    (hpre : ∀ q ∈ pre, q.ID = projectID → ∀ x ∈ q.Tasks, x.ID ≠ taskID)
    (hp : p.ID = projectID)
    (hin : updateTaskStatusInner taskID status d now p.Tasks = some ts) :
    updateTaskStatusLoop projectID taskID status d now (pre ++ p :: post)
      = some (pre ++ { p with Tasks := ts } :: post) := by
  induction pre with
  | nil => simp [updateTaskStatusLoop, hp, hin]
  | cons a as ih =>
    have ih2 := ih (fun x hx => hpre x (List.mem_cons_of_mem _ hx))
    by_cases ha : a.ID = projectID
    · have hnone : updateTaskStatusInner taskID status d now a.Tasks = none :=
        updateTaskStatusInner_none.mpr (hpre a (List.mem_cons_self _ _) ha)
      simp [updateTaskStatusLoop, ha, hnone, ih2]
    · simp [updateTaskStatusLoop, ha, ih2]

/-- When some project with the ID holds some task with the ID, the search of
`UpdateTaskStatus` stops at the first such task, in list order. -/
theorem locate_task (s : Storage) (projectID taskID : Int)
    (h : ∃ p ∈ s.Projects, p.ID = projectID ∧ ∃ t ∈ p.Tasks, t.ID = taskID) :
    ∃ pre p post tpre t tpost,
      s.Projects = pre ++ p :: post ∧ p.ID = projectID
      ∧ p.Tasks = tpre ++ t :: tpost ∧ t.ID = taskID
      ∧ (∀ q ∈ pre, q.ID = projectID → ∀ x ∈ q.Tasks, x.ID ≠ taskID)
      ∧ (∀ x ∈ tpre, x.ID ≠ taskID) := by
  cases hloop : updateTaskStatusLoop projectID taskID "" "" 0 s.Projects with
  | none =>
    obtain ⟨p, hp, hid, t, ht, htid⟩ := h
    exact absurd htid (updateTaskStatusLoop_none.mp hloop p hp hid t ht)
  | some ps =>
    obtain ⟨pre, p, post, ts, h1, h2, h3, h4, -⟩ := updateTaskStatusLoop_some hloop
    obtain ⟨tpre, t, tpost, g1, g2, g3, -⟩ := updateTaskStatusInner_some h3
    exact ⟨pre, p, post, tpre, t, tpost, h1, h2, g1, g2, h4, g3⟩

/-- Claim C7. When project `projectID` holds task `taskID`, `UpdateTaskStatus` rewrites the
first such task and nothing else: its status becomes the given status and its completed date
becomes the given date when the status is `Done` and the empty string otherwise (its update
time becomes the clock reading); the call returns what `Save` returns. Hence an update to
`Done` with date 2024-03-01 sets the completed date to that date, and a following update of
the same task to `Waiting` with an empty date clears it. -/
theorem C7_updateTaskStatus_effect (s : Storage) (projectID taskID : Int)
    (status completedDate : String) (now now2 : Time) (save save2 : Option Error)
    (h : ∃ p ∈ s.Projects, p.ID = projectID ∧ ∃ t ∈ p.Tasks, t.ID = taskID) :
    ∃ pre p post tpre t tpost,
      s.Projects = pre ++ p :: post ∧ p.ID = projectID
      ∧ p.Tasks = tpre ++ t :: tpost ∧ t.ID = taskID
      ∧ (∀ q ∈ pre, q.ID = projectID → ∀ x ∈ q.Tasks, x.ID ≠ taskID)
      ∧ (∀ x ∈ tpre, x.ID ≠ taskID)
      ∧ UpdateTaskStatus s projectID taskID status completedDate now save
          = ({ s with Projects :=
                pre ++ { p with Tasks :=
                  tpre ++ { t with Status := status, UpdatedAt := now,
                                   CompletedDate :=
                                     if status = TaskStatusDone then completedDate else "" }
                    :: tpost } :: post }, save)
      ∧ (UpdateTaskStatus s projectID taskID TaskStatusDone "2024-03-01" now save).1.Projects
          = pre ++ { p with Tasks :=
              tpre ++ { t with Status := TaskStatusDone, UpdatedAt := now,
                               CompletedDate := "2024-03-01" } :: tpost } :: post
      ∧ (UpdateTaskStatus
            (UpdateTaskStatus s projectID taskID TaskStatusDone "2024-03-01" now save).1
            projectID taskID TaskStatusWaiting "" now2 save2).1.Projects
          = pre ++ { p with Tasks :=
              tpre ++ { t with Status := TaskStatusWaiting, UpdatedAt := now2,
                               CompletedDate := "" } :: tpost } :: post := by
  obtain ⟨pre, p, post, tpre, t, tpost, h1, h2, h3, h4, h5, h6⟩ :=
    locate_task s projectID taskID h
  have general : ∀ (s0 : Storage) (p0 : Project) (t0 : Task) (st dt : String) (nw : Time)
      (sv : Option Error), s0.Projects = pre ++ p0 :: post → p0.ID = projectID →
      p0.Tasks = tpre ++ t0 :: tpost → t0.ID = taskID →
      UpdateTaskStatus s0 projectID taskID st dt nw sv
        = ({ s0 with Projects :=
              pre ++ { p0 with Tasks := tpre ++ setTaskStatus t0 st dt nw :: tpost } :: post },
           sv) := by
    intro s0 p0 t0 st dt nw sv g1 g2 g3 g4
    have hin : updateTaskStatusInner taskID st dt nw p0.Tasks
        = some (tpre ++ setTaskStatus t0 st dt nw :: tpost) := by
      rw [g3]
      exact updateTaskStatusInner_at st dt nw tpre t0 tpost h6 g4
    have hloop := updateTaskStatusLoop_at st dt nw pre p0 post _ h5 g2 hin
    unfold UpdateTaskStatus
    rw [g1, hloop]
  refine ⟨pre, p, post, tpre, t, tpost, h1, h2, h3, h4, h5, h6, ?_, ?_, ?_⟩
  · rw [general s p t status completedDate now save h1 h2 h3 h4, setTaskStatus_eq]
  · rw [general s p t TaskStatusDone "2024-03-01" now save h1 h2 h3 h4, setTaskStatus_eq]
    simp
  · rw [general s p t TaskStatusDone "2024-03-01" now save h1 h2 h3 h4]
    rw [general _ { p with Tasks := tpre ++ setTaskStatus t TaskStatusDone "2024-03-01" now
          :: tpost } (setTaskStatus t TaskStatusDone "2024-03-01" now)
        TaskStatusWaiting "" now2 save2 rfl h2 rfl
        (by rw [setTaskStatus_ID]; exact h4)]
    simp only [setTaskStatus_eq]
    have hne : ¬ TaskStatusWaiting = TaskStatusDone := by decide
    simp [hne]

/-- C7 applied to task 2 of project 1 of the example dataset. -/
theorem C7_updateTaskStatus_effect_witness :
    (∃ p ∈ exampleDataset.Projects, p.ID = 1 ∧ ∃ t ∈ p.Tasks, t.ID = 2)
    ∧ ∃ pre p post tpre t tpost,
      exampleDataset.Projects = pre ++ p :: post ∧ p.ID = 1
      ∧ p.Tasks = tpre ++ t :: tpost ∧ t.ID = 2
      ∧ (∀ q ∈ pre, q.ID = 1 → ∀ x ∈ q.Tasks, x.ID ≠ 2)
      ∧ (∀ x ∈ tpre, x.ID ≠ 2)
      ∧ UpdateTaskStatus exampleDataset 1 2 "In Progress" "2024-05-05" 8 none
          = ({ exampleDataset with Projects :=
                pre ++ { p with Tasks :=
                  tpre ++ { t with Status := "In Progress", UpdatedAt := 8,
                                   CompletedDate :=
                                     if "In Progress" = TaskStatusDone then "2024-05-05"
                                     else "" }
                    :: tpost } :: post }, none)
      ∧ (UpdateTaskStatus exampleDataset 1 2 TaskStatusDone "2024-03-01" 8 none).1.Projects
          = pre ++ { p with Tasks :=
              tpre ++ { t with Status := TaskStatusDone, UpdatedAt := 8,
                               CompletedDate := "2024-03-01" } :: tpost } :: post
      ∧ (UpdateTaskStatus
            (UpdateTaskStatus exampleDataset 1 2 TaskStatusDone "2024-03-01" 8 none).1
            1 2 TaskStatusWaiting "" 9 none).1.Projects
          = pre ++ { p with Tasks :=
              tpre ++ { t with Status := TaskStatusWaiting, UpdatedAt := 9,
                               CompletedDate := "" } :: tpost } :: post :=
  ⟨by decide,
   C7_updateTaskStatus_effect exampleDataset 1 2 "In Progress" "2024-05-05" 8 9 none none
     (by decide)⟩

/-! ## C8 and C9: `AddTask` -/

/-- Claim C8. When no stored project carries the given ID, `AddTask` returns no error (Go
`nil`, and `Save` is not called) and the dataset is exactly the one before the call; in
particular the task list seen by `GetTasks` is unchanged. -/
theorem C8_addTask_unknown_project (s : Storage) (projectID : Int) (task : Task)
    (c u : Time) (save : Option Error) (h : ∀ p ∈ s.Projects, p.ID ≠ projectID) :
    AddTask s projectID task c u save = (s, none)
    ∧ GetTasks (AddTask s projectID task c u save).1 = GetTasks s := by
  have hnone : addTaskLoop projectID task c u s.Projects = none := addTaskLoop_none.mpr h
  have : AddTask s projectID task c u save = (s, none) := by
    unfold AddTask
    rw [hnone]
  rw [this]
  exact ⟨rfl, rfl⟩

/-- On the example dataset, which has no project 7, `AddTask(7, _)` changes nothing, also
when `Save` would fail. -/
theorem C8_addTask_unknown_project_witness :
    (∀ p ∈ exampleDataset.Projects, p.ID ≠ 7)
    ∧ AddTask exampleDataset 7 (mkTask "z" "Waiting") 3 4 (some (Error.io "disk full"))
        = (exampleDataset, none)
    ∧ GetTasks
        (AddTask exampleDataset 7 (mkTask "z" "Waiting") 3 4 (some (Error.io "disk full"))).1
        = GetTasks exampleDataset :=
  ⟨by decide,
   C8_addTask_unknown_project exampleDataset 7 (mkTask "z" "Waiting") 3 4
     (some (Error.io "disk full")) (by decide)⟩

theorem stampTask_Status (p : Project) (projectID : Int) (task : Task) (c u : Time) :
    (stampTask p projectID task c u).Status = task.Status := by
  unfold stampTask
  cases p.Tasks.getLast? <;> rfl

/-- Claim C9 fails as stated. `AddTask` stores the status it is handed: a task handed in
with status `Done` is appended with status `Done`, not `Waiting`. -/
theorem C9_addTask_keeps_given_status :
    (AddTask exampleDataset 2 (mkTask "z" "Done") 3 4 none).1.Projects
      = [{ mkProject "A" "Active" with
            ID := 1,
            Tasks := [{ mkTask "x" "Waiting" with ID := 1, ProjectID := 1 },
                      { mkTask "y" "In Progress" with ID := 2, ProjectID := 1 }] },
         { mkProject "B" "Completed" with
            ID := 2,
            Tasks := [{ mkTask "z" "Done" with
                          ID := 1, ProjectID := 2, CreatedAt := 3, UpdatedAt := 4 }] }]
    ∧ ¬ ∀ (s : Storage) (projectID : Int) (task : Task) (c u : Time) (save : Option Error),
        (∃ p ∈ s.Projects, p.ID = projectID) →
        ∀ p ∈ (AddTask s projectID task c u save).1.Projects, p.ID = projectID →
          (p.Tasks.getLast?.map (fun t => t.Status)) = some TaskStatusWaiting := by
  refine ⟨by decide, fun h => ?_⟩
  have h1 := h exampleDataset 2 (mkTask "z" "Done") 3 4 none (by decide)
  revert h1
  decide

/-- Claim C9, amended. When a project with ID `projectID` exists and the task handed in has a
non-empty status, `AddTask` appends to the first such project one task carrying the status
that was handed in (a non-empty one); so the appended task has status `Waiting` whenever the
caller passes `Waiting`, as the new-task form of `main.go` always does. A task handed in
with an empty status is left aside here. -/
theorem C9_addTask_status (s : Storage) (projectID : Int) (task : Task) (c u : Time)
    (save : Option Error) (h : ∃ p ∈ s.Projects, p.ID = projectID)
    (hstatus : task.Status ≠ "") :
    ∃ pre p post newTask,
      s.Projects = pre ++ p :: post ∧ p.ID = projectID ∧ (∀ q ∈ pre, q.ID ≠ projectID)
      ∧ (AddTask s projectID task c u save).1.Projects
          = pre ++ { p with Tasks := p.Tasks ++ [newTask] } :: post
      ∧ newTask.Status = task.Status ∧ newTask.Status ≠ ""
      ∧ (task.Status = TaskStatusWaiting → newTask.Status = TaskStatusWaiting) := by
  unfold AddTask
  cases hloop : addTaskLoop projectID task c u s.Projects with
  | none =>
    obtain ⟨p, hp, hid⟩ := h
    exact absurd hid (addTaskLoop_none.mp hloop p hp)
  | some ps =>
    obtain ⟨pre, p, post, h1, h2, h3, h4⟩ := addTaskLoop_some hloop
    exact ⟨pre, p, post, stampTask p projectID task c u, h1, h2, h3, h4,
      stampTask_Status p projectID task c u,
      by rw [stampTask_Status]; exact hstatus,
      fun hw => by rw [stampTask_Status]; exact hw⟩

/-- C9 amended applied to a `Waiting` task added to project 1 of the example dataset. -/
theorem C9_addTask_status_witness :
    (∃ p ∈ exampleDataset.Projects, p.ID = 1)
    ∧ (mkTask "z" "Waiting").Status ≠ ""
    ∧ ∃ pre p post newTask,
      exampleDataset.Projects = pre ++ p :: post ∧ p.ID = 1 ∧ (∀ q ∈ pre, q.ID ≠ 1)
      ∧ (AddTask exampleDataset 1 (mkTask "z" "Waiting") 3 4 none).1.Projects
          = pre ++ { p with Tasks := p.Tasks ++ [newTask] } :: post
      ∧ newTask.Status = (mkTask "z" "Waiting").Status ∧ newTask.Status ≠ ""
      ∧ ((mkTask "z" "Waiting").Status = TaskStatusWaiting →
          newTask.Status = TaskStatusWaiting) :=
  ⟨by decide, by decide,
   C9_addTask_status exampleDataset 1 (mkTask "z" "Waiting") 3 4 none (by decide) (by decide)⟩

/-! ## C10: `DeleteProject` -/

theorem getTasks_loop (ps : List Project) (acc : List Task) (t : Task) :
    t ∈ ps.foldl (fun allTasks p => allTasks ++ p.Tasks) acc
      ↔ t ∈ acc ∨ ∃ p ∈ ps, t ∈ p.Tasks := by
  induction ps generalizing acc with
  | nil => simp
  | cons a as ih =>
    rw [List.foldl_cons, ih]
    simp only [List.mem_append, List.mem_cons, exists_eq_or_imp]
    tauto

/-- A task is listed by `GetTasks` exactly when some stored project holds it. -/
theorem mem_getTasks (s : Storage) (t : Task) :
    t ∈ GetTasks s ↔ ∃ p ∈ s.Projects, t ∈ p.Tasks := by
  unfold GetTasks
  rw [getTasks_loop]
  simp

/-- With pairwise distinct project IDs, `DeleteProject` of a stored ID removes exactly the
projects carrying that ID and keeps the others in order. -/
theorem deleteProject_eq_filter (s : Storage) (projectID : Int) (save : Option Error)
    (hnd : (s.Projects.map (fun p => p.ID)).Nodup)
    (hex : ∃ p ∈ s.Projects, p.ID = projectID) :
    DeleteProject s projectID save
      = ({ s with Projects := s.Projects.filter (fun p => decide (p.ID ≠ projectID)) },
         save) := by
  unfold DeleteProject
  cases hloop : deleteProjectLoop projectID s.Projects with
  | none =>
    obtain ⟨p, hp, hid⟩ := hex
    exact absurd hid (deleteProjectLoop_none.mp hloop p hp)
  | some ps =>
    obtain ⟨pre, p, post, h1, h2, h3, h4⟩ := deleteProjectLoop_some hloop
    have hpost : ∀ q ∈ post, q.ID ≠ projectID := by
      intro q hq hqid
      rw [h1] at hnd
      simp only [List.map_append, List.map_cons] at hnd
      have hnd2 := (List.nodup_append.mp hnd).2.1
      rw [List.nodup_cons] at hnd2
      apply hnd2.1
      rw [h2, ← hqid]
      exact List.mem_map_of_mem _ hq
    have hfpre : pre.filter (fun p => decide (p.ID ≠ projectID)) = pre := by
      rw [List.filter_eq_self]
      intro q hq
      simpa using h3 q hq
    have hfpost : post.filter (fun p => decide (p.ID ≠ projectID)) = post := by
      rw [List.filter_eq_self]
      intro q hq
      simpa using hpost q hq
    simp only [h4, h1, List.filter_append, List.filter_cons, hfpre, hfpost, h2, ne_eq,
      not_true_eq_false, decide_False, Bool.false_eq_true, if_false]

/-- Claim C10 fails as stated. A second project handed to `AddProject` with a ready-made
task whose `ProjectID` is 1 keeps that task when project 1 is deleted: after
`DeleteProject(1)` the list of `GetTasks` still holds a task whose `ProjectID` is 1. -/
theorem C10_foreign_task_survives_delete :
    ¬ ∀ (dataFile : String) (ops : List Op) (projectID : Int) (save : Option Error),
        (∃ p ∈ (run (Storage.empty dataFile) ops).Projects, p.ID = projectID) →
        ∀ t ∈ GetTasks (DeleteProject (run (Storage.empty dataFile) ops) projectID save).1,
          t.ProjectID ≠ projectID := by
  intro h
  have h1 := h "data.json"
    [Op.addProject (mkProject "A" "") none,
     Op.addProject
      { mkProject "B" "" with Tasks := [{ mkTask "x" "Waiting" with ProjectID := 1 }] } none]
    1 none (by decide)
  revert h1
  decide

/-- Claim C10, amended. For every dataset reachable from the empty one and every ID of a
stored project, after `DeleteProject(id)` no stored project has that ID and all other
projects remain, with their tasks, in their original relative order (the call returns what
`Save` returns); and when every project handed to `AddProject` had an empty task list, the
list returned by `GetTasks` contains no task whose `ProjectID` is that ID. -/
theorem C10_deleteProject_effect (dataFile : String) (ops : List Op) (projectID : Int)
    (save : Option Error)
    (hex : ∃ p ∈ (run (Storage.empty dataFile) ops).Projects, p.ID = projectID) :
    (∀ p ∈ (DeleteProject (run (Storage.empty dataFile) ops) projectID save).1.Projects,
        p.ID ≠ projectID)
    ∧ DeleteProject (run (Storage.empty dataFile) ops) projectID save
        = ({ run (Storage.empty dataFile) ops with
              Projects := (run (Storage.empty dataFile) ops).Projects.filter
                (fun p => decide (p.ID ≠ projectID)) }, save)
    ∧ ((∀ op ∈ ops, op.addsNoTasks = true) →
        ∀ t ∈ GetTasks (DeleteProject (run (Storage.empty dataFile) ops) projectID save).1,
          t.ProjectID ≠ projectID) := by
  have heq := deleteProject_eq_filter (run (Storage.empty dataFile) ops) projectID save
    (nodup_of_idsIncreasing _ (run_project_ids_increasing dataFile ops)) hex
  have hgone : ∀ p ∈ (DeleteProject (run (Storage.empty dataFile) ops) projectID
      save).1.Projects, p.ID ≠ projectID := by
    intro p hp
    rw [heq] at hp
    simpa using (List.mem_filter.mp hp).2
  refine ⟨hgone, heq, ?_⟩
  intro hops t ht
  obtain ⟨p, hp, htp⟩ := (mem_getTasks _ t).mp ht
  have hp0 : p ∈ (run (Storage.empty dataFile) ops).Projects := by
    rw [heq] at hp
    exact (List.mem_filter.mp hp).1
  rw [run_owner dataFile ops hops p hp0 t htp]
  exact hgone p hp

/-- A run that builds two projects with tasks, after which project 1 is deleted. -/
theorem C10_deleteProject_effect_witness :
    (∃ p ∈ (run (Storage.empty "data.json")
              [Op.addProject (mkProject "A" "") none,
               Op.addProject (mkProject "B" "") none,
               Op.addTask 1 (mkTask "x" "Waiting") 3 3 none,
               Op.addTask 2 (mkTask "y" "Waiting") 4 4 none]).Projects, p.ID = 1)
    ∧ (∀ op ∈ [Op.addProject (mkProject "A" "") none,
               Op.addProject (mkProject "B" "") none,
               Op.addTask 1 (mkTask "x" "Waiting") 3 3 none,
               Op.addTask 2 (mkTask "y" "Waiting") 4 4 none], op.addsNoTasks = true)
    ∧ ∀ t ∈ GetTasks (DeleteProject (run (Storage.empty "data.json")
              [Op.addProject (mkProject "A" "") none,
               Op.addProject (mkProject "B" "") none,
               Op.addTask 1 (mkTask "x" "Waiting") 3 3 none,
               Op.addTask 2 (mkTask "y" "Waiting") 4 4 none]) 1 none).1,
        t.ProjectID ≠ 1 :=
  ⟨by decide, by decide,
   (C10_deleteProject_effect "data.json" _ 1 none (by decide)).2.2 (by decide)⟩

/-! ## C11: when the four ID-addressed calls report that nothing was found -/

theorem updateProjectStatusLoop_none {projectID : Int} {status : String} {ps : List Project} :
    updateProjectStatusLoop projectID status ps = none ↔ ∀ q ∈ ps, q.ID ≠ projectID := by
  induction ps with
  | nil => simp [updateProjectStatusLoop]
  | cons a as ih =>
    unfold updateProjectStatusLoop
    by_cases ha : a.ID = projectID
    · simp [ha]
    · simp [ha, ih]

theorem deleteTaskLoop_none {projectID taskID : Int} {ps : List Project} :
    deleteTaskLoop projectID taskID ps = none
      ↔ ∀ q ∈ ps, q.ID = projectID → ∀ t ∈ q.Tasks, t.ID ≠ taskID := by
  induction ps with
  | nil => simp [deleteTaskLoop]
  | cons a as ih =>
    unfold deleteTaskLoop
    by_cases ha : a.ID = projectID
    · rw [if_pos ha]
      cases hin : deleteTaskInner taskID a.Tasks with
      | some ts =>
        have hne : ¬ ∀ q ∈ a.Tasks, q.ID ≠ taskID := fun hc => by
          rw [deleteTaskInner_none.mpr hc] at hin
          exact Option.noConfusion hin
        constructor
        · intro hc
          exact Option.noConfusion hc
        · intro hall
          exact absurd (hall a (List.mem_cons_self _ _) ha) hne
      | none =>
        have hn := deleteTaskInner_none.mp hin
        simp only [Option.map_eq_none', ih, List.mem_cons, forall_eq_or_imp]
        constructor
        · intro h
          exact ⟨fun _ => hn, h⟩
        · intro h
          exact h.2
    · rw [if_neg ha]
      simp only [Option.map_eq_none', ih, List.mem_cons, forall_eq_or_imp]
      constructor
      · intro h
        exact ⟨fun hc => absurd hc ha, h⟩
      · intro h
        exact h.2

theorem updateProjectStatus_outcome (s : Storage) (projectID : Int) (status : String) :
    ((UpdateProjectStatus s projectID status none).2 = some (Error.errorf "project not found")
        ↔ ∀ p ∈ s.Projects, p.ID ≠ projectID)
    ∧ ((UpdateProjectStatus s projectID status none).2 = none
        ↔ ¬ ∀ p ∈ s.Projects, p.ID ≠ projectID) := by
  unfold UpdateProjectStatus
  cases h : updateProjectStatusLoop projectID status s.Projects with
  | none =>
    have hc := updateProjectStatusLoop_none.mp h
    exact ⟨⟨fun _ => hc, fun _ => rfl⟩, ⟨fun hn => Option.noConfusion hn, fun hn => absurd hc hn⟩⟩
  | some ps =>
    have hc : ¬ ∀ p ∈ s.Projects, p.ID ≠ projectID := fun hc => by
      rw [updateProjectStatusLoop_none.mpr hc] at h
      exact Option.noConfusion h
    exact ⟨⟨fun hn => Option.noConfusion hn, fun hn => absurd hn hc⟩, ⟨fun _ => hc, fun _ => rfl⟩⟩

theorem deleteProject_outcome (s : Storage) (projectID : Int) :
    ((DeleteProject s projectID none).2 = some (Error.errorf "project not found")
        ↔ ∀ p ∈ s.Projects, p.ID ≠ projectID)
    ∧ ((DeleteProject s projectID none).2 = none
        ↔ ¬ ∀ p ∈ s.Projects, p.ID ≠ projectID) := by
  unfold DeleteProject
  cases h : deleteProjectLoop projectID s.Projects with
  | none =>
    have hc := deleteProjectLoop_none.mp h
    exact ⟨⟨fun _ => hc, fun _ => rfl⟩, ⟨fun hn => Option.noConfusion hn, fun hn => absurd hc hn⟩⟩
  | some ps =>
    have hc : ¬ ∀ p ∈ s.Projects, p.ID ≠ projectID := fun hc => by
      rw [deleteProjectLoop_none.mpr hc] at h
      exact Option.noConfusion h
    exact ⟨⟨fun hn => Option.noConfusion hn, fun hn => absurd hn hc⟩, ⟨fun _ => hc, fun _ => rfl⟩⟩

theorem updateTaskStatus_outcome (s : Storage) (projectID taskID : Int) (status d : String)
    (now : Time) :
    ((UpdateTaskStatus s projectID taskID status d now none).2
          = some (Error.errorf "task not found")
        ↔ ∀ p ∈ s.Projects, p.ID = projectID → ∀ t ∈ p.Tasks, t.ID ≠ taskID)
    ∧ ((UpdateTaskStatus s projectID taskID status d now none).2 = none
        ↔ ¬ ∀ p ∈ s.Projects, p.ID = projectID → ∀ t ∈ p.Tasks, t.ID ≠ taskID) := by
  unfold UpdateTaskStatus
  cases h : updateTaskStatusLoop projectID taskID status d now s.Projects with
  | none =>
    have hc := updateTaskStatusLoop_none.mp h
    exact ⟨⟨fun _ => hc, fun _ => rfl⟩, ⟨fun hn => Option.noConfusion hn, fun hn => absurd hc hn⟩⟩
  | some ps =>
    have hc : ¬ ∀ p ∈ s.Projects, p.ID = projectID → ∀ t ∈ p.Tasks, t.ID ≠ taskID :=
      fun hc => by
        rw [updateTaskStatusLoop_none.mpr hc] at h
        exact Option.noConfusion h
    exact ⟨⟨fun hn => Option.noConfusion hn, fun hn => absurd hn hc⟩, ⟨fun _ => hc, fun _ => rfl⟩⟩

theorem deleteTask_outcome (s : Storage) (projectID taskID : Int) :
    ((DeleteTask s projectID taskID none).2 = some (Error.errorf "task not found")
        ↔ ∀ p ∈ s.Projects, p.ID = projectID → ∀ t ∈ p.Tasks, t.ID ≠ taskID)
    ∧ ((DeleteTask s projectID taskID none).2 = none
        ↔ ¬ ∀ p ∈ s.Projects, p.ID = projectID → ∀ t ∈ p.Tasks, t.ID ≠ taskID) := by
  unfold DeleteTask
  cases h : deleteTaskLoop projectID taskID s.Projects with
  | none =>
    have hc := deleteTaskLoop_none.mp h
    exact ⟨⟨fun _ => hc, fun _ => rfl⟩, ⟨fun hn => Option.noConfusion hn, fun hn => absurd hc hn⟩⟩
  | some ps =>
    have hc : ¬ ∀ p ∈ s.Projects, p.ID = projectID → ∀ t ∈ p.Tasks, t.ID ≠ taskID :=
      fun hc => by
        rw [deleteTaskLoop_none.mpr hc] at h
        exact Option.noConfusion h
    exact ⟨⟨fun hn => Option.noConfusion hn, fun hn => absurd hn hc⟩, ⟨fun _ => hc, fun _ => rfl⟩⟩

/-- Claim C11. With a `Save` that succeeds: `UpdateProjectStatus(id, s)` and
`DeleteProject(id)` return the error `project not found` if and only if no stored project has
ID `id`, and return no error otherwise; `UpdateTaskStatus(p, t, s, d)` and `DeleteTask(p, t)`
return the error `task not found` if and only if no stored project has ID `p` or no project
with ID `p` holds a task with ID `t`, and return no error otherwise. -/
theorem C11_not_found_iff_absent (s : Storage) (projectID taskID : Int)
    (status completedDate : String) (now : Time) :
    ((UpdateProjectStatus s projectID status none).2 = some (Error.errorf "project not found")
        ↔ ∀ p ∈ s.Projects, p.ID ≠ projectID)
    ∧ ((UpdateProjectStatus s projectID status none).2 = none
        ↔ ∃ p ∈ s.Projects, p.ID = projectID)
    ∧ ((DeleteProject s projectID none).2 = some (Error.errorf "project not found")
        ↔ ∀ p ∈ s.Projects, p.ID ≠ projectID)
    ∧ ((DeleteProject s projectID none).2 = none ↔ ∃ p ∈ s.Projects, p.ID = projectID)
    ∧ ((UpdateTaskStatus s projectID taskID status completedDate now none).2
          = some (Error.errorf "task not found")
        ↔ ((∀ p ∈ s.Projects, p.ID ≠ projectID)
            ∨ ∀ p ∈ s.Projects, p.ID = projectID → ∀ t ∈ p.Tasks, t.ID ≠ taskID))
    ∧ ((UpdateTaskStatus s projectID taskID status completedDate now none).2 = none
        ↔ ∃ p ∈ s.Projects, p.ID = projectID ∧ ∃ t ∈ p.Tasks, t.ID = taskID)
    ∧ ((DeleteTask s projectID taskID none).2 = some (Error.errorf "task not found")
        ↔ ((∀ p ∈ s.Projects, p.ID ≠ projectID)
            ∨ ∀ p ∈ s.Projects, p.ID = projectID → ∀ t ∈ p.Tasks, t.ID ≠ taskID))
    ∧ ((DeleteTask s projectID taskID none).2 = none
        ↔ ∃ p ∈ s.Projects, p.ID = projectID ∧ ∃ t ∈ p.Tasks, t.ID = taskID) := by
  have hor : ((∀ p ∈ s.Projects, p.ID ≠ projectID)
      ∨ ∀ p ∈ s.Projects, p.ID = projectID → ∀ t ∈ p.Tasks, t.ID ≠ taskID)
      ↔ ∀ p ∈ s.Projects, p.ID = projectID → ∀ t ∈ p.Tasks, t.ID ≠ taskID := by
    constructor
    · rintro (h | h)
      · intro p hp hid
        exact absurd hid (h p hp)
      · exact h
    · exact Or.inr
  have hex1 : (¬ ∀ p ∈ s.Projects, p.ID ≠ projectID) ↔ ∃ p ∈ s.Projects, p.ID = projectID := by
    push_neg
    rfl
  have hex2 : (¬ ∀ p ∈ s.Projects, p.ID = projectID → ∀ t ∈ p.Tasks, t.ID ≠ taskID)
      ↔ ∃ p ∈ s.Projects, p.ID = projectID ∧ ∃ t ∈ p.Tasks, t.ID = taskID := by
    push_neg
    rfl
  have a := updateProjectStatus_outcome s projectID status
  have b := deleteProject_outcome s projectID
  have c := updateTaskStatus_outcome s projectID taskID status completedDate now
  have d := deleteTask_outcome s projectID taskID
  rw [hex1] at a b
  rw [hex2] at c d
  rw [hor]
  exact ⟨a.1, a.2, b.1, b.2, c.1, c.2, d.1, d.2⟩

/-! ## C15: what `DeleteTask` removes and what it leaves alone -/

/-- Claim C15. When a project with ID `projectID` holds a task with ID `taskID`, `DeleteTask`
splices exactly one task out of the dataset: the first task carrying that ID in the first
project with ID `projectID` that holds one. The tasks before and after it in that project stay
as they are and in order, every other field of that project stays as it is, and so does every
other project; the call returns what `Save` returns. -/
theorem C15_deleteTask_frame (s : Storage) (projectID taskID : Int) (save : Option Error)
    (h : ∃ p ∈ s.Projects, p.ID = projectID ∧ ∃ t ∈ p.Tasks, t.ID = taskID) :
    ∃ pre p post tpre t tpost,
      s.Projects = pre ++ p :: post ∧ p.ID = projectID
      ∧ p.Tasks = tpre ++ t :: tpost ∧ t.ID = taskID
      ∧ (∀ q ∈ pre, q.ID = projectID → ∀ x ∈ q.Tasks, x.ID ≠ taskID)
      ∧ (∀ x ∈ tpre, x.ID ≠ taskID)
      ∧ DeleteTask s projectID taskID save
          = ({ s with Projects := pre ++ { p with Tasks := tpre ++ tpost } :: post }, save)
      ∧ ((DeleteTask s projectID taskID save).1.Projects.map (fun q => q.Tasks.length)).sum + 1
          = (s.Projects.map (fun q => q.Tasks.length)).sum := by
  unfold DeleteTask
  cases hloop : deleteTaskLoop projectID taskID s.Projects with
  | none =>
    obtain ⟨p, hp, hid, t, ht, htid⟩ := h
    exact absurd htid (deleteTaskLoop_none.mp hloop p hp hid t ht)
  | some ps =>
    obtain ⟨pre, p, post, ts, h1, h2, h3, h4, h5⟩ := deleteTaskLoop_some hloop
    obtain ⟨tpre, t, tpost, g1, g2, g3, g4⟩ := deleteTaskInner_some h3
    refine ⟨pre, p, post, tpre, t, tpost, h1, h2, g1, g2, h4, g3, ?_, ?_⟩
    · simp only [h5, g4]
    · simp only [h5, g4, h1, g1, List.map_append, List.map_cons, List.sum_append,
        List.sum_cons, List.length_append, List.length_cons]
      omega

/-- C15 applied to task 1 of project 1 of the example dataset: task 2 is what remains. -/
theorem C15_deleteTask_frame_witness :
    (∃ p ∈ exampleDataset.Projects, p.ID = 1 ∧ ∃ t ∈ p.Tasks, t.ID = 1)
    ∧ ∃ pre p post tpre t tpost,
      exampleDataset.Projects = pre ++ p :: post ∧ p.ID = 1
      ∧ p.Tasks = tpre ++ t :: tpost ∧ t.ID = 1
      ∧ (∀ q ∈ pre, q.ID = 1 → ∀ x ∈ q.Tasks, x.ID ≠ 1)
      ∧ (∀ x ∈ tpre, x.ID ≠ 1)
      ∧ DeleteTask exampleDataset 1 1 none
          = ({ exampleDataset with
                Projects := pre ++ { p with Tasks := tpre ++ tpost } :: post }, none)
      ∧ ((DeleteTask exampleDataset 1 1 none).1.Projects.map
            (fun q => q.Tasks.length)).sum + 1
          = (exampleDataset.Projects.map (fun q => q.Tasks.length)).sum :=
  ⟨by decide, C15_deleteTask_frame exampleDataset 1 1 none (by decide)⟩

/-! ## C13 and C12: the month buckets of the income chart -/

theorem addToBucket_months (F : FloatOps) (label : String) (project : ui.Project)
    (ms : List ui.MonthIncome) :
    (ui.addToBucket F label project ms).map (fun mi => mi.Month)
      = ms.map (fun mi => mi.Month) := by
  induction ms with
  | nil => rfl
  | cons a as ih =>
    unfold ui.addToBucket
    split
    · rfl
    · simp [ih]

/-- The labels of the buckets are those written by the first loop, whatever the projects. -/
theorem updateData_months (F : FloatOps) (ic : ui.IncomeChart) (now : Date)
    (projects : List ui.Project) :
    (ui.IncomeChart.UpdateData F ic now projects).monthlyIncomes.map (fun mi => mi.Month)
      = (ui.initMonths now ic.monthlyIncomes).map (fun mi => mi.Month) := by
  unfold ui.IncomeChart.UpdateData
  simp only
  generalize ui.initMonths now ic.monthlyIncomes = ms
  induction projects generalizing ms with
  | nil => rfl
  | cons p ps ih =>
    rw [List.foldl_cons, ih]
    split
    · rfl
    · split
      · rfl
      · exact addToBucket_months F _ p ms

/-- A day that exists in every month is never carried over: the date reached is the same day
of the month that lies the given number of calendar months away. -/
theorem addMonths_of_day_le_28 (t : Date) (months : Int) (h : t.day ≤ 28) :
    addMonths t months
      = { year := t.year + ((t.month : Int) - 1 + months) / 12,
          month := (((t.month : Int) - 1 + months) % 12).toNat + 1,
          day := t.day } := by
  have h28 : ∀ (m : Nat) (y : Int), 28 ≤ daysIn m y := by
    intro m y
    unfold daysIn
    split
    · split <;> omega
    · split <;> omega
  unfold addMonths
  simp only
  rw [if_pos (le_trans h (h28 _ _))]

/-- Claim C13 fails on the code. On 31 March 2024 the twelve labels written by `UpdateData`
are not twelve distinct consecutive months: May, July, October and December 2023 and March
2024 each appear twice, and April, June, September and November 2023 and February 2024 are
missing. The bucket before the last one carries the label of the current month instead of
the month before it. -/
theorem C13_labels_on_the_31st (F : FloatOps) (projects : List ui.Project) :
    (ui.IncomeChart.UpdateData F ui.NewIncomeChart { year := 2024, month := 3, day := 31 }
        projects).monthlyIncomes.map (fun mi => mi.Month)
      = ["May 2023", "May 2023", "Jul 2023", "Jul 2023", "Aug 2023", "Oct 2023", "Oct 2023",
         "Dec 2023", "Dec 2023", "Jan 2024", "Mar 2024", "Mar 2024"]
    ∧ ¬ ((ui.IncomeChart.UpdateData F ui.NewIncomeChart { year := 2024, month := 3, day := 31 }
        projects).monthlyIncomes.map (fun mi => mi.Month)).Nodup
    ∧ "Feb 2024" ∉ (ui.IncomeChart.UpdateData F ui.NewIncomeChart
        { year := 2024, month := 3, day := 31 } projects).monthlyIncomes.map
          (fun mi => mi.Month) := by
  have h : (ui.IncomeChart.UpdateData F ui.NewIncomeChart { year := 2024, month := 3, day := 31 }
        projects).monthlyIncomes.map (fun mi => mi.Month)
      = ["May 2023", "May 2023", "Jul 2023", "Jul 2023", "Aug 2023", "Oct 2023", "Oct 2023",
         "Dec 2023", "Dec 2023", "Jan 2024", "Mar 2024", "Mar 2024"] := by
    rw [updateData_months]
    decide
  rw [h]
  exact ⟨rfl, by decide, by decide⟩

/-- Claim C12 fails on the code. On 31 March 2024, with one Completed project whose deadline
is 2024-03-15, the last two buckets both carry the label of March 2024; the project is booked
into the first of them and the bucket of the current month stays at income 0 with no
contributor entry, although the deadline lies in its month. -/
theorem C12_current_month_bucket_empty_on_the_31st (F : FloatOps) (name : String)
    (cost : Float64) :
    ((ui.IncomeChart.UpdateData F ui.NewIncomeChart { year := 2024, month := 3, day := 31 }
        [{ ID := 1, Name := name, Client := "", Cost := cost, Deadline := "2024-03-15",
           Status := "Completed", Tasks := [] }]).monthlyIncomes.drop 10)
      = [{ Month := "Mar 2024", Income := F.add 0 cost,
           Projects := [name ++ " ($" ++ F.format2 cost ++ ")"] },
         { Month := "Mar 2024", Income := 0, Projects := [] }] := by
  rfl

/-! ## C16: the selection index of the project list -/

/-- Claim C16 fails on the code. Started on the empty dataset, the key `up` on the empty
project list leaves `selected` at -1 (the wrap-around sets it to `len - 1`); after `n` and
four times `enter` the project form is complete, the list shows one project and `selected`
is still -1. The index expression `projects[selected]` of the `t`, `s` and `d` handlers is
then out of range and each of the three keys stops the program with a panic. -/
theorem C16_selection_negative_after_up_on_empty_list (L : Lib) (e : Env) :
    ∃ m : model,
      runProgram L (initialModel (Storage.empty "data.json"))
          [(e, Msg.key "up"), (e, Msg.key "n"), (e, Msg.key "enter"), (e, Msg.key "enter"),
           (e, Msg.key "enter"), (e, Msg.key "enter")] = some m
      ∧ m.activeView = "projects"
      ∧ m.projectList.projects.length = 1
      ∧ m.projectList.selected = -1
      ∧ m.Update L e (Msg.key "t") = none
      ∧ m.Update L e (Msg.key "s") = none
      ∧ m.Update L e (Msg.key "d") = none := by
  refine ⟨_, rfl, ?_, ?_, ?_, ?_, ?_, ?_⟩ <;> rfl

/-! ## The buckets when the twelve labels are distinct -/

/-- With pairwise distinct labels, the bucket that takes a project is the only bucket with the
label of its deadline. -/
theorem addToBucket_of_nodup (F : FloatOps) (label : String) (project : ui.Project)
    (ms : List ui.MonthIncome) (hnd : (ms.map (fun mi => mi.Month)).Nodup) :
    ui.addToBucket F label project ms
      = ms.map (fun mi =>
          if mi.Month = label then
            { mi with Income := F.add mi.Income project.Cost,
                      Projects := mi.Projects
                        ++ [project.Name ++ " ($" ++ F.format2 project.Cost ++ ")"] }
          else mi) := by
  induction ms with
  | nil => rfl
  | cons a as ih =>
    simp only [List.map_cons, List.nodup_cons] at hnd
    unfold ui.addToBucket
    by_cases ha : a.Month = label
    · rw [if_pos ha]
      simp only [List.map_cons, ha, if_true, List.cons.injEq, true_and]
      symm
      refine Eq.trans (List.map_congr_left ?_ : List.map _ as = List.map id as)
        (List.map_id as)
      intro mi hmi
      have hne : mi.Month ≠ label := by
        intro hc
        apply hnd.1
        rw [ha, ← hc]
        exact List.mem_map_of_mem _ hmi
      rw [if_neg hne]
      rfl
    · rw [if_neg ha, ih hnd.2]
      simp only [List.map_cons, ha, if_false]

/-- With pairwise distinct labels, the second loop of `UpdateData` turns every bucket into the
bucket of the specification. -/
theorem bookProjects_of_nodup (F : FloatOps) (projects : List ui.Project) :
    ∀ ms : List ui.MonthIncome, (ms.map (fun mi => mi.Month)).Nodup →
      projects.foldl
        (fun acc project =>
          if project.Status ≠ "Completed" then acc
          else
            match parseDate project.Deadline with
            | none => acc
            | some deadline => ui.addToBucket F (formatMonthYear deadline) project acc)
        ms
      = ms.map (ui.specBucket F projects) := by
  induction projects with
  | nil =>
    intro ms _
    have hid : ∀ mi : ui.MonthIncome, ui.specBucket F [] mi = mi := by
      intro mi
      simp [ui.specBucket, ui.bookedInto]
    rw [List.foldl_nil]
    exact (Eq.trans (List.map_congr_left (fun mi _ => hid mi)) (List.map_id ms)).symm
  | cons p ps ih =>
    intro ms hnd
    rw [List.foldl_cons]
    by_cases hs : p.Status = "Completed"
    · cases hd : parseDate p.Deadline with
      | none =>
        simp only [hs, ne_eq, not_true_eq_false, if_false, hd]
        rw [ih ms hnd]
        apply List.map_congr_left
        intro mi _
        simp [ui.specBucket, ui.bookedInto, List.filter_cons, hs, hd]
      | some deadline =>
        simp only [hs, ne_eq, not_true_eq_false, if_false, hd]
        rw [ih _ (by rw [addToBucket_months]; exact hnd), addToBucket_of_nodup F _ p ms hnd,
          List.map_map]
        apply List.map_congr_left
        intro mi _
        by_cases hm : mi.Month = formatMonthYear deadline
        · simp [ui.specBucket, ui.bookedInto, List.filter_cons, hs, hd, hm]
        · have hm2 : ¬ formatMonthYear deadline = mi.Month := fun hc => hm hc.symm
          simp [ui.specBucket, ui.bookedInto, List.filter_cons, hs, hd, hm, hm2]
    · simp only [hs, ne_eq, not_false_eq_true, if_true]
      rw [ih ms hnd]
      apply List.map_congr_left
      intro mi _
      simp [ui.specBucket, ui.bookedInto, List.filter_cons, hs]

/-- When the twelve labels written by the first loop are pairwise distinct, every bucket
after `UpdateData` is the bucket of the specification: its income is the sum, in input order
from 0, of the costs of the Completed projects whose deadline parses to its month, and its
contributor list holds one line for each of them; all other projects add nothing. -/
theorem updateData_buckets_of_distinct_labels (F : FloatOps) (ic : ui.IncomeChart)
    (now : Date) (projects : List ui.Project)
    (hnd : ((ui.initMonths now ic.monthlyIncomes).map (fun mi => mi.Month)).Nodup) :
    (ui.IncomeChart.UpdateData F ic now projects).monthlyIncomes
      = (ui.initMonths now ic.monthlyIncomes).map (ui.specBucket F projects) := by
  unfold ui.IncomeChart.UpdateData
  simp only
  exact bookProjects_of_nodup F projects _ hnd

/-- On 15 March 2024 the labels are the twelve months from April 2023 to March 2024, and one
Completed project with deadline 2024-03-15 is booked into the bucket of March 2024, the last
one; the same project with status Active leaves every bucket at income 0 without entries. -/
theorem updateData_mid_month_example (F : FloatOps) (name : String) (cost : Float64) :
    (ui.IncomeChart.UpdateData F ui.NewIncomeChart { year := 2024, month := 3, day := 15 }
        [{ ID := 1, Name := name, Client := "", Cost := cost, Deadline := "2024-03-15",
           Status := "Completed", Tasks := [] }]).monthlyIncomes
      = [{ Month := "Apr 2023", Income := 0, Projects := [] },
         { Month := "May 2023", Income := 0, Projects := [] },
         { Month := "Jun 2023", Income := 0, Projects := [] },
         { Month := "Jul 2023", Income := 0, Projects := [] },
         { Month := "Aug 2023", Income := 0, Projects := [] },
         { Month := "Sep 2023", Income := 0, Projects := [] },
         { Month := "Oct 2023", Income := 0, Projects := [] },
         { Month := "Nov 2023", Income := 0, Projects := [] },
         { Month := "Dec 2023", Income := 0, Projects := [] },
         { Month := "Jan 2024", Income := 0, Projects := [] },
         { Month := "Feb 2024", Income := 0, Projects := [] },
         { Month := "Mar 2024", Income := F.add 0 cost,
           Projects := [name ++ " ($" ++ F.format2 cost ++ ")"] }]
    ∧ ((ui.IncomeChart.UpdateData F ui.NewIncomeChart { year := 2024, month := 3, day := 15 }
        [{ ID := 1, Name := name, Client := "", Cost := cost, Deadline := "2024-03-15",
           Status := "Active", Tasks := [] }]).monthlyIncomes.map
          (fun mi => (mi.Income, mi.Projects)))
      = List.replicate 12 (0, []) :=
  ⟨rfl, rfl⟩

/-! ## C14: `Save` followed by `Load` -/

end Freelancy
